import Mathlib

/-!
Verification development for the privacy-enabled-agents repository.

Python strings are modelled as lists of characters (`Str`), Python string
slicing, `str.replace`, the `in` operator and stable sorting are given
executable Lean counterparts, and the replacement / restoration pipeline of
`privacy_enabled_agents.replacement.base.BaseReplacer`, the key-value entity
store of `storage/entity/valkey.py`, the chat-model wrapper
`chat_models/privacy_wrapper.py` and the conversation store of
`storage/conversation/valkey.py` are embedded as pure state-passing
functions.
-/

set_option maxHeartbeats 1600000

namespace PEA

/-- Python strings are modelled as lists of unicode code points. -/
abbrev Str := List Char

/-! ## Python primitive operations on strings -/

/-- Python index normalisation for slicing: a negative index counts from the
end of the string, and the result is clamped to `[0, len]` by `take`/`drop`. -/
def pyIdx (len : Nat) (i : Int) : Nat :=
  (if i < 0 then (len : Int) + i else i).toNat

/-- Python slice `s[:i]`. -/
def pySliceTo (s : Str) (i : Int) : Str := s.take (pyIdx s.length i)

/-- Python slice `s[i:]`. -/
def pySliceFrom (s : Str) (i : Int) : Str := s.drop (pyIdx s.length i)

/-- Does `pat` occur at the very beginning of `s`?  (Python `s.startswith(pat)`,
used to model the left-to-right scan of `str.replace`.) -/
def matchesAt : Str → Str → Bool
  | [], _ => true
  | _ :: _, [] => false
  | a :: as, b :: bs => a = b && matchesAt as bs

/-- Python containment test `pat in s`. -/
def containsSub (pat : Str) : Str → Bool
  | [] => matchesAt pat []
  | s@(_ :: rest) => matchesAt pat s || containsSub pat rest

/-- Left-to-right scan of Python `str.replace` for a non-empty pattern.
`skip` counts characters of a previously matched occurrence that still have
to be consumed without being re-examined. -/
def replScan (old new : Str) : Str → Nat → Str
  | [], _ => []
  | _ :: rest, k + 1 => replScan old new rest k
  | c :: rest, 0 =>
    if matchesAt old (c :: rest) then new ++ replScan old new rest (old.length - 1)
    else c :: replScan old new rest 0

/-- Python `s.replace(old, new)`: every non-overlapping occurrence of `old`
is replaced, scanning left to right; the replacement text is never rescanned.
For the empty pattern Python inserts `new` before every character and at the
end, which the first branch reproduces. -/
def pyReplace (s old new : Str) : Str :=
  if old.isEmpty then new ++ s.foldr (fun c acc => c :: (new ++ acc)) []
  else replScan old new s 0

/-! ## Basic lemmas about the primitives -/

theorem matchesAt_nil (s : Str) : matchesAt [] s = true := by
  cases s <;> rfl

theorem matchesAt_self_append (p t : Str) : matchesAt p (p ++ t) = true := by
  induction p with
  | nil => exact matchesAt_nil t
  | cons c p ih => simp [matchesAt, ih]

theorem matchesAt_cons_of_ne {a b : Char} (as bs : Str) (h : a ≠ b) :
    matchesAt (a :: as) (b :: bs) = false := by
  simp [matchesAt, h]

theorem replScan_nil (old new : Str) (k : Nat) : replScan old new [] k = [] := by
  cases k <;> rfl

theorem replScan_skip (old new u t : Str) :
    replScan old new (u ++ t) u.length = replScan old new t 0 := by
  induction u with
  | nil =>
    cases t with
    | nil => rfl
    | cons c r => rfl
  | cons c u ih => simpa [replScan] using ih

theorem replScan_match (o : Char) (os new t : Str) :
    replScan (o :: os) new ((o :: os) ++ t) 0 = new ++ replScan (o :: os) new t 0 := by
  have hm : matchesAt (o :: os) (o :: (os ++ t)) = true := by
    have := matchesAt_self_append (o :: os) t
    simpa using this
  show replScan (o :: os) new (o :: (os ++ t)) 0 = _
  simp only [replScan, hm, if_true]
  have hlen : (o :: os).length - 1 = os.length := by simp
  rw [hlen, replScan_skip]

theorem containsSub_nil_pat (s : Str) : containsSub [] s = true := by
  cases s <;> simp [containsSub, matchesAt_nil]

theorem containsSub_append_self (p u v : Str) :
    containsSub p (u ++ p ++ v) = true := by
  induction u with
  | nil =>
    cases p with
    | nil => simpa using containsSub_nil_pat v
    | cons a as =>
      show containsSub (a :: as) (a :: (as ++ v)) = true
      simp only [containsSub]
      have := matchesAt_self_append (a :: as) v
      simp only [List.cons_append] at this
      simp [this]
  | cons c u ih =>
    show containsSub p (c :: (u ++ p ++ v)) = true
    simp only [containsSub, ih]
    simp

/-! ## Bracket discipline

Placeholders of the default strategy have the shape `[LABEL_NN]`: an opening
bracket, an interior free of brackets, a closing bracket.  Texts that are
free of brackets can never contain such a token, which is what makes the
sequential `str.replace` calls of `BaseReplacer.restore` well behaved. -/

/-- The string contains neither an opening nor a closing square bracket. -/
def bfree (s : Str) : Prop := '[' ∉ s ∧ ']' ∉ s

instance (s : Str) : Decidable (bfree s) := by unfold bfree; infer_instance

/-- The string is a bracket token: `[` followed by a bracket-free interior
followed by `]`. -/
def btok (p : Str) : Prop := ∃ m, p = '[' :: (m ++ [']']) ∧ bfree m

theorem btok_ne_nil {p : Str} (h : btok p) : p ≠ [] := by
  obtain ⟨m, rfl, -⟩ := h
  simp

theorem bfree_nil : bfree [] := by simp [bfree]

theorem bfree_cons {c : Char} {s : Str} :
    bfree (c :: s) ↔ (c ≠ '[' ∧ c ≠ ']') ∧ bfree s := by
  simp [bfree, not_or]
  tauto

theorem bfree_append {a b : Str} : bfree (a ++ b) ↔ bfree a ∧ bfree b := by
  simp [bfree, not_or]
  tauto

theorem bfree_take (s : Str) (n : Nat) (h : bfree s) : bfree (s.take n) :=
  ⟨fun hc => h.1 (List.take_subset n s hc), fun hc => h.2 (List.take_subset n s hc)⟩

theorem bfree_drop (s : Str) (n : Nat) (h : bfree s) : bfree (s.drop n) :=
  ⟨fun hc => h.1 (List.drop_subset n s hc), fun hc => h.2 (List.drop_subset n s hc)⟩

theorem not_bfree_of_btok {p : Str} (h : btok p) : ¬ bfree p := by
  obtain ⟨m, rfl, -⟩ := h
  intro hb
  exact (bfree_cons.mp hb).1.1 rfl

/-- Scanning past a bracket-free chunk: no occurrence of a bracket token can
start inside it. -/
theorem replScan_bfree_append {old : Str} (hold : btok old) (new : Str)
    {b : Str} (hb : bfree b) (t : Str) :
    replScan old new (b ++ t) 0 = b ++ replScan old new t 0 := by
  obtain ⟨m, hm, -⟩ := hold
  induction b with
  | nil => rfl
  | cons c b ih =>
    have hc : c ≠ '[' := (bfree_cons.mp hb).1.1
    have hb' : bfree b := (bfree_cons.mp hb).2
    have hmatch : matchesAt old (c :: (b ++ t)) = false := by
      rw [hm]
      exact matchesAt_cons_of_ne _ _ (fun h => hc h.symm)
    show replScan old new (c :: (b ++ t)) 0 = _
    simp only [replScan, hmatch, if_false, Bool.false_eq_true]
    rw [ih hb']
    rfl

/-- Key alignment fact: if the bracket-free interiors of two bracket tokens
match up against each other, the interiors are equal. -/
theorem matchesAt_interior {m1 m2 t : Str} (h1 : bfree m1) (h2 : bfree m2)
    (h : matchesAt (m1 ++ [']']) (m2 ++ ']' :: t) = true) : m1 = m2 := by
  induction m1 generalizing m2 with
  | nil =>
    cases m2 with
    | nil => rfl
    | cons b bs =>
      exfalso
      have hb : b ≠ ']' := (bfree_cons.mp h2).1.2
      simp only [List.nil_append, List.cons_append, matchesAt] at h
      simp only [Bool.and_eq_true, decide_eq_true_eq] at h
      exact hb h.1.symm
  | cons a as ih =>
    cases m2 with
    | nil =>
      exfalso
      have ha : a ≠ ']' := (bfree_cons.mp h1).1.2
      simp only [List.cons_append, List.nil_append, matchesAt] at h
      simp only [Bool.and_eq_true, decide_eq_true_eq] at h
      exact ha h.1
    | cons b bs =>
      simp only [List.cons_append, matchesAt, Bool.and_eq_true, decide_eq_true_eq] at h
      have := ih (bfree_cons.mp h1).2 (bfree_cons.mp h2).2 h.2
      rw [h.1, this]

/-- Two distinct bracket tokens never match at the start of one another. -/
theorem matchesAt_btok_ne {old b : Str} (hold : btok old) (hb : btok b)
    (hne : b ≠ old) (t : Str) : matchesAt old (b ++ t) = false := by
  obtain ⟨mo, rfl, hmo⟩ := hold
  obtain ⟨mb, rfl, hmb⟩ := hb
  by_contra hmatch
  rw [Bool.not_eq_false] at hmatch
  simp only [List.cons_append, matchesAt, Bool.and_eq_true, decide_eq_true_eq] at hmatch
  have hint : mo = mb := by
    apply matchesAt_interior hmo hmb
    have h2 := hmatch.2
    simpa [List.append_assoc] using h2
  exact hne (by rw [hint])

/-- Scanning past a bracket token different from the pattern. -/
theorem replScan_btok_ne_append {old : Str} (hold : btok old) (new : Str)
    {b : Str} (hb : btok b) (hne : b ≠ old) (t : Str) :
    replScan old new (b ++ t) 0 = b ++ replScan old new t 0 := by
  obtain ⟨mb, hbeq, hmb⟩ := hb
  have hmatch : matchesAt old (b ++ t) = false := by
    exact matchesAt_btok_ne hold ⟨mb, hbeq, hmb⟩ hne t
  obtain ⟨mo, hoeq, hmo⟩ := hold
  subst hbeq
  have hov : ('[' : Char) ≠ ']' := by decide
  have hmatch2 : matchesAt old (']' :: t) = false := by
    rw [hoeq]
    exact matchesAt_cons_of_ne _ _ hov
  show replScan old new ('[' :: (mb ++ [']'] ++ t)) 0 = _
  have hstep : matchesAt old ('[' :: (mb ++ [']'] ++ t)) = false := by
    simpa using hmatch
  simp only [replScan, hstep, if_false, Bool.false_eq_true]
  have : mb ++ [']'] ++ t = mb ++ (']' :: t) := by simp
  rw [this, replScan_bfree_append ⟨mo, hoeq, hmo⟩ new hmb (']' :: t)]
  have hlast : replScan old new (']' :: t) 0 = ']' :: replScan old new t 0 := by
    simp only [replScan, hmatch2, if_false, Bool.false_eq_true]
  rw [hlast]
  simp

/-- On a bracket token pattern, `str.replace` is the left-to-right scan. -/
theorem pyReplace_btok (s : Str) {old : Str} (new : Str) (h : btok old) :
    pyReplace s old new = replScan old new s 0 := by
  obtain ⟨m, rfl, -⟩ := h
  simp [pyReplace]

/-- Main block lemma: running `str.replace` with a bracket-token pattern over
a concatenation of blocks, each bracket-free or a bracket token, replaces
exactly the blocks equal to the pattern and leaves all others intact. -/
theorem replScan_blocks {old : Str} (hold : btok old) (new : Str)
    (blocks : List Str) (hb : ∀ b ∈ blocks, bfree b ∨ btok b) :
    replScan old new blocks.flatten 0 =
      (blocks.map (fun b => if b = old then new else b)).flatten := by
  induction blocks with
  | nil => simp [replScan]
  | cons b bs ih =>
    have hbs : ∀ x ∈ bs, bfree x ∨ btok x := fun x hx => hb x (List.mem_cons_of_mem b hx)
    have hhd : bfree b ∨ btok b := hb b (List.mem_cons_self b bs)
    simp only [List.flatten_cons, List.map_cons]
    by_cases heq : b = old
    · subst heq
      obtain ⟨m, hbe, hm⟩ := hold
      have hmatch : replScan b new (b ++ bs.flatten) 0 = new ++ replScan b new bs.flatten 0 := by
        rw [hbe]
        exact replScan_match '[' (m ++ [']']) new bs.flatten
      rw [hmatch, ih hbs]
      simp
    · have hstep : replScan old new (b ++ bs.flatten) 0 = b ++ replScan old new bs.flatten 0 := by
        rcases hhd with hfree | htok
        · exact replScan_bfree_append hold new hfree bs.flatten
        · exact replScan_btok_ne_append hold new htok heq bs.flatten
      rw [hstep, ih hbs]
      simp [heq]

/-- A block equal to the pattern forces the containment test to succeed. -/
theorem containsSub_of_block_mem {old : Str} {blocks : List Str}
    (hmem : old ∈ blocks) : containsSub old blocks.flatten = true := by
  obtain ⟨s, t, rfl⟩ := List.append_of_mem hmem
  have : (s ++ old :: t).flatten = s.flatten ++ old ++ t.flatten := by
    simp [List.flatten_append]
  rw [this]
  exact containsSub_append_self old s.flatten t.flatten

/-! ## Data model: entities (privacy_enabled_agents/base.py) -/

/-- Entity from `privacy_enabled_agents.base.Entity` (pydantic model with
fields `start`, `end`, `text`, `label`, `score`).  The Python field `end` is
a Lean keyword, so it is rendered `stop`.  The `score` float is modelled as a
rational; no replacement code inspects it. -/
structure Entity where
  start : Nat
  stop : Nat
  text : Str
  label : Str
  score : Rat := 1
deriving Repr

/-! ## Entity store (storage/entity/valkey.py)

`ValkeyEntityStorage` keeps, per thread, a set of replacements
(`ctx:{t}:reps`), a string key per replacement holding the original text and
label (`ctx:{t}:rep:{r}`), a hash mapping original text to replacement
(`ctx:{t}:tex2rep`) and an integer counter per label (`ctx:{t}:lc:{l}`).
sets/hashes/keys are modelled with lists; overwriting SET/HSET is modelled
by prepending, since lookups take the first matching entry. -/

/-- First-match association-list lookup. -/
def alookup {α : Type} (k : Str) : List (Str × α) → Option α
  | [] => none
  | (k', v) :: rest => if k' = k then some v else alookup k rest

/-- The per-thread state of `ValkeyEntityStorage`. -/
structure EntityStore where
  /-- members of the set `ctx:{t}:reps`, in insertion order -/
  reps : List Str := []
  /-- value of the key `ctx:{t}:rep:{r}`: the original text and its label -/
  repData : List (Str × Str × Str) := []
  /-- the hash `ctx:{t}:tex2rep` -/
  tex2rep : List (Str × Str) := []
  /-- the counters `ctx:{t}:lc:{l}` -/
  lc : List (Str × Nat) := []
deriving Repr

/-- Embeds `ValkeyEntityStorage.put`: one pipeline that sets the replacement
record, SADDs the replacement, HSETs the reverse index and registers the
thread. -/
def putEntry (text label replacement : Str) (st : EntityStore) : EntityStore :=
  { st with
    repData := (replacement, (text, label)) :: st.repData
    reps := if replacement ∈ st.reps then st.reps else st.reps ++ [replacement]
    tex2rep := (text, replacement) :: st.tex2rep }

/-- Embeds `ValkeyEntityStorage.get_replacement`: HGET on the reverse index;
the Python code tests the raw bytes for truthiness, so an empty replacement
string behaves like an absent one. -/
def getReplacement (st : EntityStore) (text : Str) : Option Str :=
  match alookup text st.tex2rep with
  | some r => if r = [] then none else some r
  | none => none

/-- Embeds the lookup part of `ValkeyEntityStorage.get_text` as used through
the `BaseEntityStorage` contract: the original text and label recorded for a
replacement, if any. -/
def getText (st : EntityStore) (replacement : Str) : Option (Str × Str) :=
  alookup replacement st.repData

/-- Embeds `ValkeyEntityStorage.inc_label_counter`: Redis INCR, returning the
new value (a missing key counts as 0). -/
def incLabelCounter (label : Str) (st : EntityStore) : Nat × EntityStore :=
  let n := (alookup label st.lc).getD 0 + 1
  (n, { st with lc := (label, n) :: st.lc })

/-- Embeds `ValkeyEntityStorage.list_replacements` (SMEMBERS of the
replacement set; the model keeps insertion order). -/
def listReplacements (st : EntityStore) : List Str := st.reps

/-! ## The replacer (replacement/base.py) -/

/-- One step of `BaseReplacer.replace` for a single entity: look the original
up in the entity store; if absent, call the strategy's `create_replacement`
and `put` the new triple.  Returns the replacement together with the updated
store. -/
def lookupOrCreate (create : Entity → EntityStore → Str × EntityStore)
    (e : Entity) (st : EntityStore) : Str × EntityStore :=
  match getReplacement st e.text with
  | some r => (r, st)
  | none =>
    let (r, st1) := create e st
    (r, putEntry e.text e.label r st1)

/-- The loop of `BaseReplacer.replace`: entities are processed in the order
supplied, the running `text_offset` starts at 0, each entity is spliced as
`text[: start+offset] + replacement + text[end+offset :]`, and the offset is
advanced by `len(replacement) - len(entity.text)`. -/
def replaceGo (create : Entity → EntityStore → Str × EntityStore) :
    List Entity → Str → Int → EntityStore → Str × EntityStore
  | [], text, _, st => (text, st)
  | e :: es, text, off, st =>
    let r := lookupOrCreate create e st
    let text' := pySliceTo text (e.start + off) ++ r.1 ++ pySliceFrom text (e.stop + off)
    replaceGo create es text' (off + r.1.length - e.text.length) r.2

/-- Embeds `BaseReplacer.replace`.  The strategy-specific
`create_replacement` is a parameter, as it is an abstract method of
`BaseReplacer`. -/
def replace (create : Entity → EntityStore → Str × EntityStore)
    (text : Str) (entities : List Entity) (st : EntityStore) : Str × EntityStore :=
  replaceGo create entities text 0 st

/-- The placeholders chosen by `replace` for each entity in order, together
with the final store; the store updates of `replace` do not depend on the
text, so this runs the same store evolution as `replaceGo`. -/
def replacePlaceholders (create : Entity → EntityStore → Str × EntityStore) :
    List Entity → EntityStore → List Str × EntityStore
  | [], st => ([], st)
  | e :: es, st =>
    let r := lookupOrCreate create e st
    let rest := replacePlaceholders create es r.2
    (r.1 :: rest.1, rest.2)

/-! ## Restoration (replacement/base.py) -/

/-- Stable insertion of a string into a list sorted by descending length:
the element is placed before the first element that is not longer.  Together
with `sortLenDesc` this models Python `list.sort(key=len, reverse=True)`,
which is stable and orders longer strings first. -/
def insertLenDesc (x : Str) : List Str → List Str
  | [] => [x]
  | y :: ys => if y.length ≤ x.length then x :: y :: ys else y :: insertLenDesc x ys

/-- Python `replacements.sort(key=len, reverse=True)`. -/
def sortLenDesc (l : List Str) : List Str := l.foldr insertLenDesc []

/-- Embeds `BaseReplacer.restore`: fetch all replacements of the thread, sort
them by length descending, and for each one occurring in the text substitute
the stored original for every occurrence. -/
def restore (st : EntityStore) (text : Str) : Str :=
  (sortLenDesc (listReplacements st)).foldl
    (fun t r =>
      if containsSub r t then
        match getText st r with
        | some ot => pyReplace t r ot.1
        | none => t
      else t) text

/-! ## Shape of the replaced text

When the entities are well formed — in order, non-overlapping, inside the
text, with `text == source[start:end]` as the data model requires — the
result of `replace` decomposes into the untouched segments of the source
interleaved with the chosen placeholders. -/

/-- Well-formed entity list with respect to the source text and a cursor:
sorted by start, pairwise non-overlapping, spans inside the text, and the
`text` field equal to the span it designates. -/
def spansOKb (text : Str) : Nat → List Entity → Bool
  | _, [] => true
  | pos, e :: es =>
    decide (pos ≤ e.start) && decide (e.start ≤ e.stop) && decide (e.stop ≤ text.length) &&
      decide (e.text = (text.take e.stop).drop e.start) && spansOKb text e.stop es

theorem spansOKb_cons {text : Str} {pos : Nat} {e : Entity} {es : List Entity} :
    spansOKb text pos (e :: es) = true ↔
      pos ≤ e.start ∧ e.start ≤ e.stop ∧ e.stop ≤ text.length ∧
        e.text = (text.take e.stop).drop e.start ∧ spansOKb text e.stop es = true := by
  simp [spansOKb, and_assoc]

/-- The interleaving of source segments and placeholders produced by a run of
`replace` over well-formed entities. -/
def spliceChunks (text : Str) : Nat → List (Entity × Str) → Str
  | pos, [] => text.drop pos
  | pos, (e, p) :: rest => (text.take e.start).drop pos ++ p ++ spliceChunks text e.stop rest

/-- The same interleaving as an explicit block list (segments and
placeholders as separate list elements). -/
def chunkBlocks (text : Str) : Nat → List (Entity × Str) → List Str
  | pos, [] => [text.drop pos]
  | pos, (e, p) :: rest => (text.take e.start).drop pos :: p :: chunkBlocks text e.stop rest

theorem chunkBlocks_flatten (text : Str) (pos : Nat) (pairs : List (Entity × Str)) :
    (chunkBlocks text pos pairs).flatten = spliceChunks text pos pairs := by
  induction pairs generalizing pos with
  | nil => simp [chunkBlocks, spliceChunks]
  | cons ep rest ih =>
    obtain ⟨e, p⟩ := ep
    simp [chunkBlocks, spliceChunks, ih, List.append_assoc]

theorem length_seg {t : Str} {a b : Nat} (hb : b ≤ t.length) :
    ((t.take b).drop a).length = b - a := by
  simp [List.length_drop, List.length_take]
  omega

theorem seg_of_drop {t : Str} (a b : Nat) (hab : a ≤ b) :
    (t.drop a).take (b - a) = (t.take b).drop a := by
  rw [List.drop_take]

theorem drop_eq_seg_append {t : Str} {a b : Nat} (hab : a ≤ b) (hb : b ≤ t.length) :
    t.drop a = (t.take b).drop a ++ t.drop b := by
  conv_lhs => rw [← List.take_append_drop b t]
  rw [List.drop_append_of_le_length]
  simp [List.length_take]
  omega

/-- The two Python slices of one replacement step, evaluated on a text of the
shape `A ++ t0.drop c` at offset `A.length - c`. -/
theorem splice_slices (A t0 : Str) (c : Nat) (e : Entity)
    (hc : c ≤ e.start) (hse : e.start ≤ e.stop) (hstop : e.stop ≤ t0.length) :
    pySliceTo (A ++ t0.drop c) ((e.start : Int) + ((A.length : Int) - (c : Int)))
        = A ++ (t0.take e.start).drop c ∧
      pySliceFrom (A ++ t0.drop c) ((e.stop : Int) + ((A.length : Int) - (c : Int)))
        = t0.drop e.stop := by
  constructor
  · rw [pySliceTo, pyIdx]
    have hneg : ¬ ((e.start : Int) + ((A.length : Int) - (c : Int)) < 0) := by omega
    rw [if_neg hneg]
    have htn : ((e.start : Int) + ((A.length : Int) - (c : Int))).toNat
        = A.length + (e.start - c) := by omega
    rw [htn, List.take_append, seg_of_drop c e.start hc]
  · rw [pySliceFrom, pyIdx]
    have hneg : ¬ ((e.stop : Int) + ((A.length : Int) - (c : Int)) < 0) := by omega
    rw [if_neg hneg]
    have htn : ((e.stop : Int) + ((A.length : Int) - (c : Int))).toNat
        = A.length + (e.stop - c) := by omega
    rw [htn, List.drop_append, List.drop_drop]
    congr 1
    omega

/-- Shape of a full run of the `BaseReplacer.replace` loop over well-formed
entities: already-redacted material `A` is never touched again, and the rest
decomposes into segments and placeholders. -/
theorem replaceGo_shape (create : Entity → EntityStore → Str × EntityStore)
    (t0 : Str) :
    ∀ (es : List Entity) (A : Str) (c : Nat) (st : EntityStore),
      spansOKb t0 c es = true →
      replaceGo create es (A ++ t0.drop c) ((A.length : Int) - (c : Int)) st =
        (A ++ spliceChunks t0 c (es.zip (replacePlaceholders create es st).1),
          (replacePlaceholders create es st).2) := by
  intro es
  induction es with
  | nil => intro A c st _; simp [replaceGo, replacePlaceholders, spliceChunks]
  | cons e es ih =>
    intro A c st hok
    obtain ⟨hc, hse, hstop, htext, hrest⟩ := spansOKb_cons.mp hok
    obtain ⟨hslice1, hslice2⟩ := splice_slices A t0 c e hc hse hstop
    have hltext : e.text.length = e.stop - e.start := by
      rw [htext]; exact length_seg hstop
    have hlseg : ((t0.take e.start).drop c).length = e.start - c :=
      length_seg (le_trans hse hstop)
    show replaceGo create es
        (pySliceTo (A ++ t0.drop c) ((e.start : Int) + ((A.length : Int) - (c : Int)))
          ++ (lookupOrCreate create e st).1
          ++ pySliceFrom (A ++ t0.drop c) ((e.stop : Int) + ((A.length : Int) - (c : Int))))
        (((A.length : Int) - (c : Int)) + (lookupOrCreate create e st).1.length - e.text.length)
        (lookupOrCreate create e st).2 = _
    rw [hslice1, hslice2]
    have hofs : ((A.length : Int) - (c : Int)) + (lookupOrCreate create e st).1.length
          - e.text.length
        = (((A ++ (t0.take e.start).drop c ++ (lookupOrCreate create e st).1).length : Int)
          - (e.stop : Int)) := by
      simp only [List.length_append, hltext, hlseg]
      push_cast
      omega
    have htxt : A ++ (t0.take e.start).drop c ++ (lookupOrCreate create e st).1
          ++ t0.drop e.stop
        = (A ++ (t0.take e.start).drop c ++ (lookupOrCreate create e st).1) ++ t0.drop e.stop := by
      simp [List.append_assoc]
    rw [htxt, hofs,
      ih (A ++ (t0.take e.start).drop c ++ (lookupOrCreate create e st).1) e.stop
        (lookupOrCreate create e st).2 hrest]
    show _ = (A ++ spliceChunks t0 c ((e, (lookupOrCreate create e st).1) ::
      es.zip (replacePlaceholders create es (lookupOrCreate create e st).2).1), _)
    simp [spliceChunks, replacePlaceholders, List.append_assoc]

/-- `BaseReplacer.replace` on well-formed entities produces the interleaving
of untouched source segments with the chosen placeholders. -/
theorem replace_shape (create : Entity → EntityStore → Str × EntityStore)
    (text : Str) (es : List Entity) (st : EntityStore)
    (hok : spansOKb text 0 es = true) :
    replace create text es st =
      (spliceChunks text 0 (es.zip (replacePlaceholders create es st).1),
        (replacePlaceholders create es st).2) := by
  have h := replaceGo_shape create text es [] 0 st hok
  simpa [replace] using h

/-! ## Store evolution along a run of `replace` -/

theorem alookup_cons {α : Type} (k k' : Str) (v : α) (l : List (Str × α)) :
    alookup k ((k', v) :: l) = if k' = k then some v else alookup k l := rfl

theorem getText_putEntry_self (t l r : Str) (st : EntityStore) :
    getText (putEntry t l r st) r = some (t, l) := by
  simp [getText, putEntry, alookup]

theorem getText_putEntry_ne (t l r r' : Str) (st : EntityStore) (h : r ≠ r') :
    getText (putEntry t l r st) r' = getText st r' := by
  simp [getText, putEntry, alookup, h]

theorem mem_reps_putEntry {x : Str} (t l r : Str) (st : EntityStore) :
    x ∈ (putEntry t l r st).reps ↔ x ∈ st.reps ∨ x = r := by
  by_cases h : r ∈ st.reps
  · simp [putEntry, h]
    intro hx
    rw [hx]
    exact h
  · simp [putEntry, h, or_comm]

theorem tex2rep_putEntry_self (t l r : Str) (st : EntityStore) :
    alookup t (putEntry t l r st).tex2rep = some r := by
  simp [putEntry, alookup]

theorem tex2rep_putEntry_ne (t l r t' : Str) (st : EntityStore) (h : t ≠ t') :
    alookup t' (putEntry t l r st).tex2rep = alookup t' st.tex2rep := by
  simp [putEntry, alookup, h]

/-- Invariant on the entity store: every recorded replacement is a bracket
token whose stored original is bracket-free, and the reverse index is
consistent with the replacement records. -/
def StoreOK (st : EntityStore) : Prop :=
  (∀ r ∈ st.reps, btok r ∧ ∃ o l, getText st r = some (o, l) ∧ bfree o) ∧
    (∀ t p, alookup t st.tex2rep = some p →
      p ∈ st.reps ∧ ∃ l, getText st p = some (t, l))

/-- Assumptions on a `create_replacement` strategy: it returns a fresh
bracket token and leaves the mapping data of the store untouched (it may
update counters, as the placeholder strategy does). -/
def CreateOK (create : Entity → EntityStore → Str × EntityStore) : Prop :=
  ∀ e st, btok (create e st).1 ∧ getText st (create e st).1 = none ∧
    (create e st).1 ∉ st.reps ∧ (create e st).2.repData = st.repData ∧
    (create e st).2.tex2rep = st.tex2rep ∧ (create e st).2.reps = st.reps

theorem storeOK_of_eq {st st' : EntityStore} (hok : StoreOK st)
    (h1 : st'.repData = st.repData) (h2 : st'.tex2rep = st.tex2rep)
    (h3 : st'.reps = st.reps) : StoreOK st' := by
  constructor
  · intro r hr
    rw [h3] at hr
    obtain ⟨hb, o, l, hget, hfree⟩ := hok.1 r hr
    exact ⟨hb, o, l, by rw [getText, h1]; exact hget, hfree⟩
  · intro t p hp
    rw [h2] at hp
    obtain ⟨hmem, l, hget⟩ := hok.2 t p hp
    exact ⟨by rw [h3]; exact hmem, l, by rw [getText, h1]; exact hget⟩

theorem storeOK_putEntry {st : EntityStore} {t l r : Str} (hok : StoreOK st)
    (hbt : btok r) (hfresh : getText st r = none) (hfresh2 : r ∉ st.reps)
    (hbf : bfree t) : StoreOK (putEntry t l r st) := by
  constructor
  · intro x hx
    rcases (mem_reps_putEntry t l r st).mp hx with hold | rfl
    · obtain ⟨hb, o, l', hget, hfree⟩ := hok.1 x hold
      refine ⟨hb, o, l', ?_, hfree⟩
      rwa [getText_putEntry_ne t l r x st (fun h => hfresh2 (h ▸ hold))]
    · exact ⟨hbt, t, l, getText_putEntry_self t l x st, hbf⟩
  · intro t' p hp
    by_cases ht : t = t'
    · subst ht
      rw [tex2rep_putEntry_self t l r st] at hp
      cases hp
      exact ⟨(mem_reps_putEntry t l r st).mpr (Or.inr rfl), l,
        getText_putEntry_self t l r st⟩
    · rw [tex2rep_putEntry_ne t l r t' st ht] at hp
      obtain ⟨hmem, l', hget⟩ := hok.2 t' p hp
      refine ⟨(mem_reps_putEntry t l r st).mpr (Or.inl hmem), l', ?_⟩
      rwa [getText_putEntry_ne t l r p st (fun h => hfresh2 (h ▸ hmem))]

/-- Structure of one `lookupOrCreate` step, for case analysis. -/
theorem lookupOrCreate_cases (create : Entity → EntityStore → Str × EntityStore)
    (e : Entity) (st : EntityStore) :
    (∃ r, getReplacement st e.text = some r ∧ lookupOrCreate create e st = (r, st)) ∨
      (getReplacement st e.text = none ∧
        lookupOrCreate create e st =
          ((create e st).1, putEntry e.text e.label (create e st).1 (create e st).2)) := by
  cases h : getReplacement st e.text with
  | some r => exact Or.inl ⟨r, rfl, by simp [lookupOrCreate, h]⟩
  | none => exact Or.inr ⟨rfl, by simp [lookupOrCreate, h]⟩

/-- A `lookupOrCreate` step under `CreateOK` preserves existing replacement
records. -/
theorem lookupOrCreate_mono_getText {create : Entity → EntityStore → Str × EntityStore}
    (hcr : CreateOK create) (e : Entity) (st : EntityStore) {r : Str} {v : Str × Str}
    (h : getText st r = some v) :
    getText (lookupOrCreate create e st).2 r = some v := by
  rcases lookupOrCreate_cases create e st with ⟨p, -, heq⟩ | ⟨-, heq⟩
  · rw [heq]; exact h
  · rw [heq]
    obtain ⟨-, hfresh, -, hdata, -, -⟩ := hcr e st
    have hne : (create e st).1 ≠ r := by
      intro hcon
      rw [hcon, h] at hfresh
      cases hfresh
    rw [getText_putEntry_ne _ _ _ _ _ hne, getText, hdata]
    exact h

theorem lookupOrCreate_mono_reps {create : Entity → EntityStore → Str × EntityStore}
    (hcr : CreateOK create) (e : Entity) (st : EntityStore) {r : Str}
    (h : r ∈ st.reps) : r ∈ (lookupOrCreate create e st).2.reps := by
  rcases lookupOrCreate_cases create e st with ⟨p, -, heq⟩ | ⟨-, heq⟩
  · rw [heq]; exact h
  · rw [heq]
    refine (mem_reps_putEntry _ _ _ _).mpr (Or.inl ?_)
    rw [(hcr e st).2.2.2.2.2]
    exact h

theorem lookupOrCreate_StoreOK {create : Entity → EntityStore → Str × EntityStore}
    (hcr : CreateOK create) (e : Entity) (st : EntityStore) (hok : StoreOK st)
    (hbf : bfree e.text) : StoreOK (lookupOrCreate create e st).2 := by
  rcases lookupOrCreate_cases create e st with ⟨p, -, heq⟩ | ⟨-, heq⟩
  · rw [heq]; exact hok
  · rw [heq]
    obtain ⟨hbt, hfresh, hfresh2, hdata, htex, hreps⟩ := hcr e st
    have hok1 : StoreOK (create e st).2 := storeOK_of_eq hok hdata htex hreps
    refine storeOK_putEntry hok1 hbt ?_ ?_ hbf
    · rw [getText, hdata]; exact hfresh
    · rw [hreps]; exact hfresh2

theorem rp_mono_getText {create : Entity → EntityStore → Str × EntityStore}
    (hcr : CreateOK create) (es : List Entity) :
    ∀ (st : EntityStore) {r : Str} {v : Str × Str}, getText st r = some v →
      getText (replacePlaceholders create es st).2 r = some v := by
  induction es with
  | nil => intro st r v h; exact h
  | cons e es ih =>
    intro st r v h
    show getText (replacePlaceholders create es (lookupOrCreate create e st).2).2 r = some v
    exact ih _ (lookupOrCreate_mono_getText hcr e st h)

theorem rp_mono_reps {create : Entity → EntityStore → Str × EntityStore}
    (hcr : CreateOK create) (es : List Entity) :
    ∀ (st : EntityStore) {r : Str}, r ∈ st.reps →
      r ∈ (replacePlaceholders create es st).2.reps := by
  induction es with
  | nil => intro st r h; exact h
  | cons e es ih =>
    intro st r h
    show r ∈ (replacePlaceholders create es (lookupOrCreate create e st).2).2.reps
    exact ih _ (lookupOrCreate_mono_reps hcr e st h)

theorem rp_StoreOK {create : Entity → EntityStore → Str × EntityStore}
    (hcr : CreateOK create) (es : List Entity) :
    ∀ (st : EntityStore), StoreOK st → (∀ e ∈ es, bfree e.text) →
      StoreOK (replacePlaceholders create es st).2 := by
  induction es with
  | nil => intro st hok _; exact hok
  | cons e es ih =>
    intro st hok hbf
    show StoreOK (replacePlaceholders create es (lookupOrCreate create e st).2).2
    exact ih _ (lookupOrCreate_StoreOK hcr e st hok (hbf e (List.mem_cons_self e es)))
      (fun x hx => hbf x (List.mem_cons_of_mem e hx))

/-- The pointwise facts about the chosen placeholders, all stated with
respect to the final store of the run. -/
def PlaceholdersOK (st : EntityStore) : List Entity → List Str → Prop
  | [], [] => True
  | e :: es, p :: ps =>
      (btok p ∧ p ∈ st.reps ∧ ∃ l, getText st p = some (e.text, l)) ∧
        PlaceholdersOK st es ps
  | _, _ => False

theorem rp_PlaceholdersOK {create : Entity → EntityStore → Str × EntityStore}
    (hcr : CreateOK create) (es : List Entity) :
    ∀ (st : EntityStore), StoreOK st → (∀ e ∈ es, bfree e.text) →
      PlaceholdersOK (replacePlaceholders create es st).2 es
        (replacePlaceholders create es st).1 := by
  induction es with
  | nil => intro st _ _; trivial
  | cons e es ih =>
    intro st hok hbf
    have hbfe : bfree e.text := hbf e (List.mem_cons_self e es)
    have hbfs : ∀ x ∈ es, bfree x.text := fun x hx => hbf x (List.mem_cons_of_mem e hx)
    have hok' : StoreOK (lookupOrCreate create e st).2 :=
      lookupOrCreate_StoreOK hcr e st hok hbfe
    show PlaceholdersOK _ (e :: es) ((lookupOrCreate create e st).1 ::
      (replacePlaceholders create es (lookupOrCreate create e st).2).1)
    refine ⟨?_, ih _ hok' hbfs⟩
    -- the head placeholder, looked up in the final store of the whole run
    rcases lookupOrCreate_cases create e st with ⟨p, hsome, heq⟩ | ⟨hnone, heq⟩
    · -- an existing mapping was found
      have hx : alookup e.text st.tex2rep = some p ∧ p ≠ [] := by
        unfold getReplacement at hsome
        cases halo : alookup e.text st.tex2rep with
        | none => rw [halo] at hsome; simp at hsome
        | some q =>
          rw [halo] at hsome
          have hsome' : (if q = [] then none else some q) = some p := hsome
          by_cases hq : q = []
          · rw [if_pos hq] at hsome'; cases hsome'
          · rw [if_neg hq] at hsome'
            obtain rfl : q = p := Option.some.inj hsome'
            exact ⟨rfl, hq⟩
      obtain ⟨hmem, l, hget⟩ := hok.2 e.text p hx.1
      have hbt : btok p := (hok.1 p hmem).1
      have hfinal := rp_mono_getText hcr es ((lookupOrCreate create e st).2)
        (r := p) (v := (e.text, l)) (by rw [heq]; exact hget)
      refine ⟨by rw [heq]; exact hbt, ?_, l, by rw [heq]; exact hfinal⟩
      rw [heq]
      exact rp_mono_reps hcr es _ (by rw [heq]; exact hmem)
    · -- a fresh placeholder was created and put
      obtain ⟨hbt, hfresh, hfresh2, hdata, htex, hreps⟩ := hcr e st
      have hget : getText (lookupOrCreate create e st).2 (create e st).1
          = some (e.text, e.label) := by
        rw [heq]; exact getText_putEntry_self _ _ _ _
      have hp1 : (lookupOrCreate create e st).1 = (create e st).1 := by rw [heq]
      have hmem : (create e st).1 ∈ (lookupOrCreate create e st).2.reps := by
        rw [heq]
        exact (mem_reps_putEntry _ _ _ _).mpr (Or.inr rfl)
      refine ⟨hp1 ▸ hbt, ?_, e.label, ?_⟩
      · rw [hp1]
        exact rp_mono_reps hcr es _ hmem
      · rw [hp1]
        exact rp_mono_getText hcr es _ hget

/-! ## The sort used by `restore` -/

theorem insertLenDesc_perm (x : Str) (l : List Str) :
    (insertLenDesc x l).Perm (x :: l) := by
  induction l with
  | nil => exact List.Perm.refl _
  | cons y ys ih =>
    by_cases h : y.length ≤ x.length
    · simp [insertLenDesc, h]
    · simp only [insertLenDesc, h, if_false]
      exact List.Perm.trans (List.Perm.cons y ih) (List.Perm.swap x y ys)

theorem sortLenDesc_perm (l : List Str) : (sortLenDesc l).Perm l := by
  induction l with
  | nil => exact List.Perm.refl _
  | cons a l ih =>
    exact List.Perm.trans (insertLenDesc_perm a (sortLenDesc l)) (List.Perm.cons a ih)

theorem mem_sortLenDesc {x : Str} {l : List Str} : x ∈ sortLenDesc l ↔ x ∈ l :=
  (sortLenDesc_perm l).mem_iff

theorem mem_insertLenDesc {z x : Str} {l : List Str} :
    z ∈ insertLenDesc x l ↔ z = x ∨ z ∈ l := by
  rw [(insertLenDesc_perm x l).mem_iff]
  simp

theorem insertLenDesc_pairwise {x : Str} {l : List Str}
    (h : l.Pairwise (fun a b => b.length ≤ a.length)) :
    (insertLenDesc x l).Pairwise (fun a b => b.length ≤ a.length) := by
  induction l with
  | nil => simp [insertLenDesc]
  | cons y ys ih =>
    by_cases hxy : y.length ≤ x.length
    · simp only [insertLenDesc, hxy, if_true]
      refine List.Pairwise.cons ?_ h
      intro z hz
      rcases List.mem_cons.mp hz with rfl | hz
      · exact hxy
      · exact le_trans (List.rel_of_pairwise_cons h hz) hxy
    · simp only [insertLenDesc, hxy, if_false]
      refine List.Pairwise.cons ?_ (ih (List.Pairwise.sublist (List.sublist_cons_self y ys) h))
      intro z hz
      rcases mem_insertLenDesc.mp hz with rfl | hz
      · omega
      · exact List.rel_of_pairwise_cons h hz

/-- The list `restore` iterates over is sorted by descending length. -/
theorem sortLenDesc_sorted (l : List Str) :
    (sortLenDesc l).Pairwise (fun a b => b.length ≤ a.length) := by
  induction l with
  | nil => simp [sortLenDesc]
  | cons a l ih => exact insertLenDesc_pairwise ih

/-! ## Correctness of the restoration fold -/

/-- The original text recorded for a replacement (the value `restore`
substitutes). -/
def origOf (st : EntityStore) (r : Str) : Str :=
  match getText st r with
  | some ot => ot.1
  | none => r

/-- One restoration pass over a text made of bracket-free segments and
bracket-token placeholders replaces exactly the placeholder blocks that are
listed, each with its own stored original. -/
theorem restore_fold_blocks (st : EntityStore) (rs : List Str)
    (hrs : ∀ r ∈ rs, btok r ∧ ∃ o l, getText st r = some (o, l) ∧ bfree o) :
    ∀ blocks : List Str, (∀ b ∈ blocks, bfree b ∨ (btok b ∧ b ∈ rs)) →
      rs.foldl
        (fun t r =>
          if containsSub r t then
            match getText st r with
            | some ot => pyReplace t r ot.1
            | none => t
          else t) blocks.flatten
      = (blocks.map (fun b => if b ∈ rs then origOf st b else b)).flatten := by
  induction rs with
  | nil =>
    intro blocks _
    simp
  | cons r rs' ih =>
    intro blocks hb
    obtain ⟨hbt, o, l, hget, hofree⟩ := hrs r (List.mem_cons_self r rs')
    have hrs' : ∀ x ∈ rs', btok x ∧ ∃ o l, getText st x = some (o, l) ∧ bfree o :=
      fun x hx => hrs x (List.mem_cons_of_mem r hx)
    have horig : origOf st r = o := by simp [origOf, hget]
    -- the first fold step turns every block equal to `r` into `o`
    have hstep :
        (if containsSub r blocks.flatten then
          match getText st r with
          | some ot => pyReplace blocks.flatten r ot.1
          | none => blocks.flatten
        else blocks.flatten)
        = (blocks.map (fun b => if b = r then o else b)).flatten := by
      by_cases hc : containsSub r blocks.flatten = true
      · rw [if_pos hc, hget]
        show pyReplace blocks.flatten r o = _
        rw [pyReplace_btok _ _ hbt]
        exact replScan_blocks hbt o blocks
          (fun b hbm => (hb b hbm).imp id And.left)
      · rw [if_neg hc]
        have hnone : ∀ b ∈ blocks, b ≠ r := by
          intro b hbm heq
          subst heq
          exact hc (containsSub_of_block_mem hbm)
        have : blocks.map (fun b => if b = r then o else b) = blocks := by
          rw [List.map_congr_left (g := id) ?_, List.map_id]
          intro b hbm
          simp [hnone b hbm]
        rw [this]
    have hblocks' : ∀ b' ∈ blocks.map (fun b => if b = r then o else b),
        bfree b' ∨ (btok b' ∧ b' ∈ rs') := by
      intro b' hb'
      obtain ⟨b, hbm, rfl⟩ := List.mem_map.mp hb'
      by_cases hbr : b = r
      · simp only [hbr, if_true]
        exact Or.inl hofree
      · simp only [hbr, if_false]
        rcases hb b hbm with hfree | ⟨hbtk, hbmem⟩
        · exact Or.inl hfree
        · exact Or.inr ⟨hbtk, (List.mem_cons.mp hbmem).resolve_left hbr⟩
    have hIH := ih hrs' (blocks.map (fun b => if b = r then o else b)) hblocks'
    -- combine: the composite of the two maps is the map over the full list
    have hcomp :
        ((blocks.map (fun b => if b = r then o else b)).map
          (fun b => if b ∈ rs' then origOf st b else b))
        = blocks.map (fun b => if b ∈ r :: rs' then origOf st b else b) := by
      rw [List.map_map]
      apply List.map_congr_left
      intro b hbm
      by_cases hbr : b = r
      · subst hbr
        have honotin : o ∉ rs' := by
          intro hcon
          exact not_bfree_of_btok (hrs' o hcon).1 hofree
        simp [Function.comp, honotin, horig]
      · have : (b ∈ r :: rs') ↔ b ∈ rs' := by
          simp [List.mem_cons, hbr]
        simp only [Function.comp, hbr, if_false, this]
    show List.foldl _ (if containsSub r blocks.flatten then _ else blocks.flatten) rs'
        = _
    rw [hstep, hIH, hcomp]

/-! ## Assembly lemmas for the round trip -/

theorem spansOKb_mem_bfree {s : Str} (hs : bfree s) :
    ∀ (c : Nat) (es : List Entity), spansOKb s c es = true →
      ∀ e ∈ es, bfree e.text := by
  intro c es
  induction es generalizing c with
  | nil => intro _ e he; cases he
  | cons e es ih =>
    intro hok x hx
    obtain ⟨-, -, -, htext, hrest⟩ := spansOKb_cons.mp hok
    rcases List.mem_cons.mp hx with rfl | hx
    · rw [htext]
      exact bfree_drop _ _ (bfree_take _ _ hs)
    · exact ih e.stop hrest x hx

theorem blocks_ok {s : Str} (hs : bfree s) (st' : EntityStore) :
    ∀ (es : List Entity) (ps : List Str) (c : Nat),
      spansOKb s c es = true → PlaceholdersOK st' es ps →
      ∀ b ∈ chunkBlocks s c (es.zip ps), bfree b ∨ (btok b ∧ b ∈ st'.reps) := by
  intro es
  induction es with
  | nil =>
    intro ps c _ hpl b hb
    cases ps with
    | nil =>
      simp only [List.zip_nil_right, chunkBlocks, List.mem_singleton] at hb
      subst hb
      exact Or.inl (bfree_drop _ _ hs)
    | cons p ps => exact hpl.elim
  | cons e es ih =>
    intro ps c hok hpl b hb
    cases ps with
    | nil => exact hpl.elim
    | cons p ps =>
      obtain ⟨⟨hbt, hmem, l, hget⟩, htail⟩ := hpl
      obtain ⟨-, -, -, -, hrest⟩ := spansOKb_cons.mp hok
      simp only [List.zip_cons_cons, chunkBlocks, List.mem_cons] at hb
      rcases hb with rfl | rfl | hb
      · exact Or.inl (bfree_drop _ _ (bfree_take _ _ hs))
      · exact Or.inr ⟨hbt, hmem⟩
      · exact ih ps e.stop hrest htail b hb

theorem restored_chunks {s : Str} (hs : bfree s) (st' : EntityStore) (rs : List Str)
    (hmem : ∀ x : Str, x ∈ rs ↔ x ∈ st'.reps)
    (hbtokall : ∀ r ∈ st'.reps, btok r) :
    ∀ (es : List Entity) (ps : List Str) (c : Nat),
      spansOKb s c es = true → PlaceholdersOK st' es ps →
      ((chunkBlocks s c (es.zip ps)).map
        (fun b => if b ∈ rs then origOf st' b else b)).flatten = s.drop c := by
  have hfree_not : ∀ b : Str, bfree b → b ∉ rs := by
    intro b hb hin
    exact not_bfree_of_btok (hbtokall b ((hmem b).mp hin)) hb
  intro es
  induction es with
  | nil =>
    intro ps c _ hpl
    cases ps with
    | nil =>
      simp only [List.zip_nil_right, chunkBlocks, List.map_cons, List.map_nil]
      rw [if_neg (hfree_not _ (bfree_drop _ _ hs))]
      simp
    | cons p ps => exact hpl.elim
  | cons e es ih =>
    intro ps c hok hpl
    cases ps with
    | nil => exact hpl.elim
    | cons p ps =>
      obtain ⟨⟨hbt, hmemp, l, hget⟩, htail⟩ := hpl
      obtain ⟨hc, hse, hstop, htext, hrest⟩ := spansOKb_cons.mp hok
      simp only [List.zip_cons_cons, chunkBlocks, List.map_cons, List.flatten_cons]
      rw [if_neg (hfree_not _ (bfree_drop _ _ (bfree_take _ _ hs)))]
      rw [if_pos ((hmem p).mpr hmemp)]
      have horig : origOf st' p = e.text := by simp [origOf, hget]
      have hflat : (List.map (fun b => if b ∈ rs then origOf st' b else b)
          (chunkBlocks s e.stop (List.zipWith Prod.mk es ps))).flatten
          = List.drop e.stop s := ih ps e.stop hrest htail
      rw [horig, hflat, htext]
      have hstep1 : s.drop c = (s.take e.stop).drop c ++ s.drop e.stop :=
        drop_eq_seg_append (le_trans hc hse) hstop
      have htk : (s.take e.stop).take e.start = s.take e.start := by
        rw [List.take_take, min_eq_left hse]
      have hstep2 : (s.take e.stop).drop c
          = (s.take e.start).drop c ++ (s.take e.stop).drop e.start := by
        have hlen : e.start ≤ (s.take e.stop).length := by
          rw [List.length_take]
          omega
        have := drop_eq_seg_append (t := s.take e.stop) hc
          (by rw [List.length_take]; omega)
        rwa [htk] at this
      rw [hstep1, hstep2, List.append_assoc]

/-- The empty per-thread store satisfies the store invariant. -/
theorem storeOK_empty : StoreOK {} := by
  constructor
  · intro r hr
    exact absurd hr (List.not_mem_nil r)
  · intro t p hp
    exact Option.noConfusion hp

/-! ### A concrete admissible strategy, used by the witnesses

`create_replacement` strategies are abstract in `BaseReplacer`; for concrete
witnesses we use a strategy that emits a bracket token strictly longer than
everything recorded in the store, which makes it fresh. -/

/-- A bracket token strictly longer than every string recorded in the store. -/
def freshTok (st : EntityStore) : Str :=
  '[' :: (List.replicate
    (((st.reps ++ st.repData.map Prod.fst).map List.length).sum) 'X' ++ [']'])

theorem freshTok_btok (st : EntityStore) : btok (freshTok st) := by
  refine ⟨List.replicate _ 'X', rfl, ?_, ?_⟩
  · intro h
    have := List.eq_of_mem_replicate h
    cases this
  · intro h
    have := List.eq_of_mem_replicate h
    cases this

theorem len_le_of_mem_combined {x : Str} {l : List Str} (h : x ∈ l) :
    x.length ≤ (l.map List.length).sum :=
  List.single_le_sum (fun _ _ => Nat.zero_le _) _ (List.mem_map_of_mem List.length h)

theorem freshTok_length (st : EntityStore) :
    (freshTok st).length
      = ((st.reps ++ st.repData.map Prod.fst).map List.length).sum + 2 := by
  simp [freshTok]

theorem freshTok_not_mem_reps (st : EntityStore) : freshTok st ∉ st.reps := by
  intro h
  have h1 := len_le_of_mem_combined (List.mem_append_left (st.repData.map Prod.fst) h)
  rw [freshTok_length st] at h1
  omega

theorem alookup_some_mem {α : Type} {k : Str} {v : α} :
    ∀ {l : List (Str × α)}, alookup k l = some v → k ∈ l.map Prod.fst := by
  intro l
  induction l with
  | nil => intro h; simp [alookup] at h
  | cons kv rest ih =>
    intro h
    rw [alookup_cons] at h
    by_cases hk : kv.1 = k
    · rw [List.map_cons, hk]
      exact List.mem_cons_self k _
    · rw [if_neg hk] at h
      rw [List.map_cons]
      exact List.mem_cons_of_mem _ (ih h)

theorem freshTok_getText_none (st : EntityStore) : getText st (freshTok st) = none := by
  cases h : getText st (freshTok st) with
  | none => rfl
  | some v =>
    exfalso
    have hmem := alookup_some_mem h
    have h1 := len_le_of_mem_combined (List.mem_append_right st.reps hmem)
    rw [freshTok_length st] at h1
    omega

/-- A concrete strategy satisfying the `CreateOK` contract (used by
witnesses): always returns a fresh bracket token and leaves the store
unchanged. -/
def witCreate : Entity → EntityStore → Str × EntityStore :=
  fun _ st => (freshTok st, st)

theorem createOK_witCreate : CreateOK witCreate :=
  fun _ st => ⟨freshTok_btok st, freshTok_getText_none st, freshTok_not_mem_reps st,
    rfl, rfl, rfl⟩

/-! ## Claim C1 -/

/-- C1, the claim as stated (refuted below): an entity list that is
well formed for the source text, a strategy and a store for which the claim
is expected to hold, yet the round trip fails because the source text itself
contains the placeholder string.  `cexCreate` stands for a strategy whose
first created placeholder is `[X_01]`, as the default numbered strategy
would produce for label `x`. -/
def cexCreate : Entity → EntityStore → Str × EntityStore :=
  fun _ st => ("[X_01]".data, st)

/-- The single detected entity of the C1 counterexample: the span `ab` at
offsets 7..9 of `"[X_01] ab"`. -/
def cexEntity : Entity :=
  { start := 7, stop := 9, text := "ab".data, label := "x".data }

/-- C1 counterexample: for the input `"[X_01] ab"` with the single
non-overlapping detected entity `ab` (offsets 7..9) and an empty thread
store, `restore (replace s)` returns `"ab ab"`, not the input: the claim
`restore(replace(s, detect(s), T), T) == s` fails for an input that already
contains the placeholder chosen for an entity. -/
theorem c1_roundtrip_counterexample :
    spansOKb "[X_01] ab".data 0 [cexEntity] = true ∧
      restore (replace cexCreate "[X_01] ab".data [cexEntity] {}).2
          (replace cexCreate "[X_01] ab".data [cexEntity] {}).1
        = "ab ab".data ∧
      "ab ab".data ≠ "[X_01] ab".data := by
  refine ⟨by decide, by decide, by decide⟩

/-- C1 (amended): the round trip `restore(replace(s, es, T), T) == s` holds
for every thread store and strategy under the bracket discipline: the
entities are well formed (sorted by start, non-overlapping, spans matching
the text), the input text contains no square bracket (hence in particular no
placeholder of the thread), every stored replacement is a bracket token
mapping to a bracket-free original with a consistent reverse index, and the
strategy creates fresh bracket tokens without touching the mapping. -/
theorem c1_roundtrip_amended
    (create : Entity → EntityStore → Str × EntityStore) (s : Str)
    (es : List Entity) (st : EntityStore)
    (hst : StoreOK st) (hcr : CreateOK create)
    (hok : spansOKb s 0 es = true) (hs : bfree s) :
    restore (replace create s es st).2 (replace create s es st).1 = s := by
  have htexts : ∀ e ∈ es, bfree e.text := spansOKb_mem_bfree hs 0 es hok
  have hsOK' : StoreOK (replacePlaceholders create es st).2 :=
    rp_StoreOK hcr es st hst htexts
  have hpl : PlaceholdersOK (replacePlaceholders create es st).2 es
      (replacePlaceholders create es st).1 := rp_PlaceholdersOK hcr es st hst htexts
  rw [replace_shape create s es st hok]
  show restore (replacePlaceholders create es st).2
      (spliceChunks s 0 (es.zip (replacePlaceholders create es st).1)) = s
  have hmemiff : ∀ x : Str,
      x ∈ sortLenDesc (listReplacements (replacePlaceholders create es st).2) ↔
        x ∈ (replacePlaceholders create es st).2.reps :=
    fun _ => mem_sortLenDesc
  have hrs : ∀ r ∈ sortLenDesc (listReplacements (replacePlaceholders create es st).2),
      btok r ∧ ∃ o l, getText (replacePlaceholders create es st).2 r = some (o, l) ∧ bfree o :=
    fun r hr => hsOK'.1 r ((hmemiff r).mp hr)
  have hb : ∀ b ∈ chunkBlocks s 0 (es.zip (replacePlaceholders create es st).1),
      bfree b ∨ (btok b ∧
        b ∈ sortLenDesc (listReplacements (replacePlaceholders create es st).2)) := by
    intro b hbm
    rcases blocks_ok hs (replacePlaceholders create es st).2 es
        (replacePlaceholders create es st).1 0 hok hpl b hbm with h1 | ⟨h2, h3⟩
    · exact Or.inl h1
    · exact Or.inr ⟨h2, (hmemiff b).mpr h3⟩
  have hfold := restore_fold_blocks (replacePlaceholders create es st).2
    (sortLenDesc (listReplacements (replacePlaceholders create es st).2)) hrs
    (chunkBlocks s 0 (es.zip (replacePlaceholders create es st).1)) hb
  rw [chunkBlocks_flatten] at hfold
  have hrest := restored_chunks hs (replacePlaceholders create es st).2
    (sortLenDesc (listReplacements (replacePlaceholders create es st).2)) hmemiff
    (fun r hr => (hsOK'.1 r hr).1) es (replacePlaceholders create es st).1 0 hok hpl
  show (sortLenDesc (listReplacements (replacePlaceholders create es st).2)).foldl _ _ = s
  rw [hfold, hrest]
  exact List.drop_zero s

/-- The entity used by the C1 and C2 witnesses: `bob` at offsets 3..6 of
`"hi bob"`. -/
def witEntity : Entity :=
  { start := 3, stop := 6, text := "bob".data, label := "person".data }

/-- C1 witness: the amended round trip at a concrete input. -/
theorem c1_roundtrip_witness :
    restore (replace witCreate "hi bob".data [witEntity] {}).2
        (replace witCreate "hi bob".data [witEntity] {}).1 = "hi bob".data :=
  c1_roundtrip_amended witCreate "hi bob".data [witEntity] {}
    storeOK_empty createOK_witCreate (by decide) (by decide)

/-! ## Claim C2 -/

/-- Definition following the specification wording for C2: the same loop as
`replaceGo`, except that the offset is advanced by
`len(placeholder) − (end − start)` instead of
`len(replacement) − len(entity.text)`. -/
def replaceSpecGo (create : Entity → EntityStore → Str × EntityStore) :
    List Entity → Str → Int → EntityStore → Str × EntityStore
  | [], text, _, st => (text, st)
  | e :: es, text, off, st =>
    let r := lookupOrCreate create e st
    let text' := pySliceTo text (e.start + off) ++ r.1 ++ pySliceFrom text (e.stop + off)
    replaceSpecGo create es text' (off + r.1.length - ((e.stop : Int) - (e.start : Int))) r.2

/-- Definition following the specification wording for C2, top level. -/
def replaceSpec (create : Entity → EntityStore → Str × EntityStore)
    (text : Str) (entities : List Entity) (st : EntityStore) : Str × EntityStore :=
  replaceSpecGo create entities text 0 st

theorem replaceGo_eq_specGo (create : Entity → EntityStore → Str × EntityStore) :
    ∀ es : List Entity,
      (∀ e ∈ es, e.start ≤ e.stop ∧ e.text.length = e.stop - e.start) →
      ∀ (text : Str) (off : Int) (st : EntityStore),
        replaceGo create es text off st = replaceSpecGo create es text off st := by
  intro es
  induction es with
  | nil => intro _ text off st; rfl
  | cons e es ih =>
    intro hwf text off st
    obtain ⟨hse, hlen⟩ := hwf e (List.mem_cons_self e es)
    have hwf' : ∀ x ∈ es, x.start ≤ x.stop ∧ x.text.length = x.stop - x.start :=
      fun x hx => hwf x (List.mem_cons_of_mem e hx)
    show replaceGo create es _
        (off + ((lookupOrCreate create e st).1.length : Int) - (e.text.length : Int)) _ = _
    have hofs : off + ((lookupOrCreate create e st).1.length : Int) - (e.text.length : Int)
        = off + ((lookupOrCreate create e st).1.length : Int)
          - ((e.stop : Int) - (e.start : Int)) := by
      omega
    rw [hofs]
    exact ih hwf' _ _ _

/-- C2: `replace` accepts the entities in the order supplied with a running
offset starting at 0, splicing `text[: start+offset] + placeholder +
text[end+offset :]` and then advancing the offset by
`len(placeholder) − (end − start)` (the code computes
`len(replacement) − len(entity.text)`, equal under the entity invariant
`len(text) = end − start`); consequently, for non-overlapping entities sorted
by start, the result is the interleaving of the untouched source segments
with the placeholders: every character outside the entity spans is unchanged. -/
theorem c2_replace_algorithm (create : Entity → EntityStore → Str × EntityStore)
    (text : Str) (es : List Entity) (st : EntityStore)
    (hwf : ∀ e ∈ es, e.start ≤ e.stop ∧ e.text.length = e.stop - e.start) :
    replace create text es st = replaceSpec create text es st ∧
      (spansOKb text 0 es = true →
        (replace create text es st).1
          = spliceChunks text 0 (es.zip (replacePlaceholders create es st).1)) := by
  refine ⟨replaceGo_eq_specGo create es hwf text 0 st, fun hok => ?_⟩
  rw [replace_shape create text es st hok]

/-- C2 witness: the algorithm refinement and the segment decomposition at a
concrete input. -/
theorem c2_replace_algorithm_witness :
    replace witCreate "hi bob".data [witEntity] {}
        = replaceSpec witCreate "hi bob".data [witEntity] {} ∧
      (replace witCreate "hi bob".data [witEntity] {}).1
        = spliceChunks "hi bob".data 0
            ([witEntity].zip (replacePlaceholders witCreate [witEntity] {}).1) :=
  ⟨(c2_replace_algorithm witCreate "hi bob".data [witEntity] {} (by decide)).1,
    (c2_replace_algorithm witCreate "hi bob".data [witEntity] {} (by decide)).2 (by decide)⟩

/-! ## Claim C7 -/

/-- The store of the C7 scenario: mappings `[PERSON_1] → Ann` and
`[PERSON_10] → Bo` within one thread. -/
def c7Store : EntityStore :=
  { reps := ["[PERSON_1]".data, "[PERSON_10]".data]
    repData := [("[PERSON_1]".data, ("Ann".data, "person".data)),
      ("[PERSON_10]".data, ("Bo".data, "person".data))]
    tex2rep := [("Ann".data, "[PERSON_1]".data), ("Bo".data, "[PERSON_10]".data)]
    lc := [("PERSON".data, 10)] }

/-- C7: `restore` iterates over the stored placeholders in descending length
order (a permutation of the stored set sorted by length, so `[PERSON_1]` is
processed after `[PERSON_10]`); on a text made of bracket-free segments and
bracket-token placeholders it substitutes exactly the placeholder blocks,
each exactly once with its own original; and on the concrete adversarial
scenario, `"[PERSON_10] and [PERSON_1] met."` with `[PERSON_1] → Ann`,
`[PERSON_10] → Bo` restores to `"Bo and Ann met."`. -/
theorem c7_restore_descending :
    (∀ st : EntityStore,
      (sortLenDesc (listReplacements st)).Pairwise (fun a b => b.length ≤ a.length) ∧
        (sortLenDesc (listReplacements st)).Perm (listReplacements st)) ∧
      (∀ (st : EntityStore) (blocks : List Str),
        (∀ r ∈ listReplacements st,
          btok r ∧ ∃ o l, getText st r = some (o, l) ∧ bfree o) →
        (∀ b ∈ blocks, bfree b ∨ (btok b ∧ b ∈ listReplacements st)) →
        restore st blocks.flatten
          = (blocks.map
              (fun b => if b ∈ listReplacements st then origOf st b else b)).flatten) ∧
      restore c7Store ("[PERSON_10] and [PERSON_1] met.".data)
        = "Bo and Ann met.".data := by
  refine ⟨fun st => ⟨sortLenDesc_sorted _, sortLenDesc_perm _⟩, ?_, by decide⟩
  intro st blocks hrs hb
  have hmemiff : ∀ x : Str,
      x ∈ sortLenDesc (listReplacements st) ↔ x ∈ listReplacements st :=
    fun _ => mem_sortLenDesc
  have hfold := restore_fold_blocks st (sortLenDesc (listReplacements st))
    (fun r hr => hrs r ((hmemiff r).mp hr)) blocks
    (fun b hbm => ((hb b hbm).imp id
      (fun h => ⟨h.1, (hmemiff b).mpr h.2⟩)))
  show (sortLenDesc (listReplacements st)).foldl _ blocks.flatten = _
  rw [hfold]
  congr 1
  apply List.map_congr_left
  intro b _
  by_cases hbr : b ∈ listReplacements st
  · rw [if_pos ((hmemiff b).mpr hbr), if_pos hbr]
  · rw [if_neg (fun hcon => hbr ((hmemiff b).mp hcon)), if_neg hbr]

/-- C7 witness: descending order and the concrete restoration, at the C7
store. -/
theorem c7_restore_descending_witness :
    (sortLenDesc (listReplacements c7Store)).Pairwise
        (fun a b => b.length ≤ a.length) ∧
      restore c7Store ("[PERSON_10] and [PERSON_1] met.".data)
        = "Bo and Ann met.".data :=
  ⟨(c7_restore_descending.1 c7Store).1, c7_restore_descending.2.2⟩

/-! ## Claim C3 -/

theorem getReplacement_eq_some {st : EntityStore} {t r : Str} :
    getReplacement st t = some r ↔ alookup t st.tex2rep = some r ∧ r ≠ [] := by
  unfold getReplacement
  cases h : alookup t st.tex2rep with
  | none => simp
  | some q =>
    show (if q = [] then none else some q) = some r ↔ some q = some r ∧ r ≠ []
    by_cases hq : q = []
    · rw [if_pos hq]
      constructor
      · intro hcon; cases hcon
      · rintro ⟨he, hr⟩
        exact absurd (Option.some.inj he ▸ hq) hr
    · rw [if_neg hq]
      constructor
      · intro he
        exact ⟨he, fun hr => hq (by rw [Option.some.inj he, hr])⟩
      · rintro ⟨he, -⟩
        exact he

/-- Pointwise stability of the placeholders chosen for an original `O`. -/
def StableFor (O p : Str) : List Entity → List Str → Prop
  | [], [] => True
  | e :: es, q :: ps => (e.text = O → q = p) ∧ StableFor O p es ps
  | _, _ => False

/-- C3 (amended): for every strategy that does not touch the text-to-
placeholder index (all store-backed strategies: the loop itself performs the
only `put`), once a thread maps an original `O` to a (non-empty) placeholder
`p`, every subsequent `replace` call uses `p` for every entity whose text is
`O` and leaves the mapping of `O` unchanged — the placeholder of the first
encounter is the placeholder forever.  In the encryption-native mode the
claim fails: `get_replacement` re-encrypts on every call (see the
counterexample). -/
theorem c3_placeholder_stability
    (create : Entity → EntityStore → Str × EntityStore)
    (htex : ∀ (e : Entity) (st : EntityStore), ((create e st).2).tex2rep = st.tex2rep)
    (O p : Str) (st : EntityStore)
    (hO : alookup O st.tex2rep = some p) (hp : p ≠ []) :
    ∀ es : List Entity,
      alookup O ((replacePlaceholders create es st).2).tex2rep = some p ∧
        StableFor O p es (replacePlaceholders create es st).1 := by
  have main : ∀ (es : List Entity) (st : EntityStore), alookup O st.tex2rep = some p →
      alookup O ((replacePlaceholders create es st).2).tex2rep = some p ∧
        StableFor O p es (replacePlaceholders create es st).1 := by
    intro es
    induction es with
    | nil => intro st hO0; exact ⟨hO0, trivial⟩
    | cons e es ih =>
      intro st hO0
      rcases lookupOrCreate_cases create e st with ⟨r, hsome, heq⟩ | ⟨hnone, heq⟩
      · have h1 := ih st hO0
        refine ⟨?_, ?_, ?_⟩
        · show alookup O
            ((replacePlaceholders create es (lookupOrCreate create e st).2).2).tex2rep = some p
          rw [heq]
          exact h1.1
        · intro hOe
          rw [hOe] at hsome
          obtain ⟨halo, -⟩ := getReplacement_eq_some.mp hsome
          have hrp : some r = some p := by rw [← halo, hO0]
          show (lookupOrCreate create e st).1 = p
          rw [heq]
          exact Option.some.inj hrp
        · show StableFor O p es
            (replacePlaceholders create es (lookupOrCreate create e st).2).1
          rw [heq]
          exact h1.2
      · have hne : e.text ≠ O := by
          intro hOe
          rw [hOe] at hnone
          rw [getReplacement_eq_some.mpr ⟨hO0, hp⟩] at hnone
          cases hnone
        have hO' : alookup O
            (putEntry e.text e.label (create e st).1 (create e st).2).tex2rep = some p := by
          show alookup O ((e.text, (create e st).1) :: (create e st).2.tex2rep) = some p
          rw [alookup_cons, if_neg hne, htex e st]
          exact hO0
        have h1 := ih (putEntry e.text e.label (create e st).1 (create e st).2) hO'
        refine ⟨?_, ?_, ?_⟩
        · show alookup O
            ((replacePlaceholders create es (lookupOrCreate create e st).2).2).tex2rep = some p
          rw [heq]
          exact h1.1
        · intro hOe
          exact absurd hOe hne
        · show StableFor O p es
            (replacePlaceholders create es (lookupOrCreate create e st).2).1
          rw [heq]
          exact h1.2
  exact fun es => main es st hO

/-! ### The encryption-native mode (storage/entity/encryption.py)

`EncryptionEntityStorage.get_replacement` builds `Fernet(key=thread_id.bytes)`
and returns `fernet.encrypt(text.encode())` as the placeholder, appending it
to a per-thread list.  The Fernet token format is taken from the
`cryptography` library (an external dependency of the repository): the token
is the url-safe base64 encoding of
`0x80 || 8-byte timestamp || 16-byte IV || AES-CBC ciphertext || 32-byte HMAC`,
where the IV is drawn fresh from `os.urandom(16)` on every call.  The AES
block cipher and the HMAC are abstracted as function parameters; the current
time and the IV are explicit parameters standing for the ambient
nondeterminism.  (The library would in fact reject `thread_id.bytes` as a
key — Fernet requires 32 url-safe base64-encoded bytes, while a UUID yields
16 raw bytes — so the mode raises on first use; the key bytes are a
parameter here.) -/

/-- Byte layout of a Fernet token before base64 encoding. -/
def fernetTokenBytes (aesEnc : List Nat → List Nat → List Nat → List Nat)
    (hmacTag : List Nat → List Nat) (encKey time iv pt : List Nat) : List Nat :=
  let body := 128 :: (time ++ iv ++ aesEnc encKey iv pt)
  body ++ hmacTag body

/-- The url-safe base64 alphabet (RFC 4648 §5). -/
def b64urlChar (n : Nat) : Char :=
  ("ABCDEFGHIJKLMNOPQRSTUVWXYZabcdefghijklmnopqrstuvwxyz0123456789-_".data).getD n 'A'

/-- Url-safe base64 encoding of a byte list, with padding. -/
def b64urlEncode : List Nat → Str
  | [] => []
  | [b1] => [b64urlChar (b1 / 4), b64urlChar (b1 % 4 * 16), '=', '=']
  | [b1, b2] => [b64urlChar (b1 / 4), b64urlChar (b1 % 4 * 16 + b2 / 16),
      b64urlChar (b2 % 16 * 4), '=']
  | b1 :: b2 :: b3 :: rest =>
      b64urlChar (b1 / 4) :: b64urlChar (b1 % 4 * 16 + b2 / 16) ::
        b64urlChar (b2 % 16 * 4 + b3 / 64) :: b64urlChar (b3 % 64) :: b64urlEncode rest

/-- Per-thread ciphertext lists kept by `EncryptionEntityStorage.__init__`. -/
structure EncStorageState where
  storage : List (Nat × List Str) := []

/-- `self._storage.setdefault(thread_id, []).append(encrypted_text)`. -/
def encStoreAppend (tid : Nat) (tok : Str) : List (Nat × List Str) → List (Nat × List Str)
  | [] => [(tid, [tok])]
  | (t, l) :: rest =>
    if t = tid then (t, l ++ [tok]) :: rest else (t, l) :: encStoreAppend tid tok rest

/-- Embeds `EncryptionEntityStorage.get_replacement`: encrypt the text under
the thread key with a fresh IV, record the ciphertext, return it as the
placeholder.  It never consults previous results and never returns `None`. -/
def encGetReplacement (aesEnc : List Nat → List Nat → List Nat → List Nat)
    (hmacTag : List Nat → List Nat) (tid : Nat) (keyBytes time iv pt : List Nat)
    (st : EncStorageState) : Str × EncStorageState :=
  let token := b64urlEncode (fernetTokenBytes aesEnc hmacTag keyBytes time iv pt)
  (token, { storage := encStoreAppend tid token st.storage })

/-- Fernet tokens embed the IV verbatim at bytes 9..24, so two calls with
different IVs yield different tokens regardless of cipher and MAC. -/
theorem fernetTokenBytes_ne (aesEnc : List Nat → List Nat → List Nat → List Nat)
    (hmacTag : List Nat → List Nat) (encKey pt : List Nat)
    {time1 time2 iv1 iv2 : List Nat}
    (ht1 : time1.length = 8) (ht2 : time2.length = 8)
    (hiv1 : iv1.length = 16) (hiv2 : iv2.length = 16) (hne : iv1 ≠ iv2) :
    fernetTokenBytes aesEnc hmacTag encKey time1 iv1 pt
      ≠ fernetTokenBytes aesEnc hmacTag encKey time2 iv2 pt := by
  intro heq
  unfold fernetTokenBytes at heq
  have heq2 : time1 ++ (iv1 ++ (aesEnc encKey iv1 pt
        ++ hmacTag (128 :: (time1 ++ iv1 ++ aesEnc encKey iv1 pt))))
      = time2 ++ (iv2 ++ (aesEnc encKey iv2 pt
        ++ hmacTag (128 :: (time2 ++ iv2 ++ aesEnc encKey iv2 pt)))) := by
    have := List.tail_eq_of_cons_eq heq
    simpa [List.append_assoc] using this
  have h1 := (List.append_inj heq2 (by rw [ht1, ht2])).2
  have h2 := (List.append_inj h1 (by rw [hiv1, hiv2])).1
  exact hne h2

/-- C3 witness: a thread store that already maps `bob` to `[PERSON_01]`; a
later `replace` over an entity with text `bob` keeps and uses that
placeholder. -/
theorem c3_placeholder_stability_witness :
    alookup "bob".data
        ((replacePlaceholders witCreate [witEntity]
          (putEntry "bob".data "person".data "[PERSON_01]".data {})).2).tex2rep
      = some "[PERSON_01]".data ∧
      StableFor "bob".data "[PERSON_01]".data [witEntity]
        (replacePlaceholders witCreate [witEntity]
          (putEntry "bob".data "person".data "[PERSON_01]".data {})).1 :=
  c3_placeholder_stability witCreate (fun _ _ => rfl) "bob".data "[PERSON_01]".data
    (putEntry "bob".data "person".data "[PERSON_01]".data {}) (by decide) (by decide)
    [witEntity]

/-- C3 counterexample (the encryption-native mode): two `get_replacement`
calls for the same original in the same thread, differing only in the fresh
IV, return different placeholders — the placeholder of the first encounter
is not reused.  The cipher is instantiated with a concrete function; the
inequality holds for any cipher by `fernetTokenBytes_ne`. -/
theorem c3_encryption_counterexample :
    (encGetReplacement (fun _ _ pt => pt) (fun _ => List.replicate 32 0) 7
        (List.replicate 16 0) (List.replicate 8 0) (List.replicate 16 0)
        [65, 108, 105, 99, 101] { storage := [] }).1
      ≠ (encGetReplacement (fun _ _ pt => pt) (fun _ => List.replicate 32 0) 7
        (List.replicate 16 0) (List.replicate 8 0) (1 :: List.replicate 15 0)
        [65, 108, 105, 99, 101] { storage := [] }).1 := by
  decide

/-! ## Claim C4 -/

/-- The label categories `PseudonymReplacer.replacement_map` supports. -/
def pseudonymSupported : List Str :=
  ["person".data, "email".data, "phone number".data, "address".data, "iban".data,
    "credit card number".data, "location".data]

/-- Embeds `PseudonymReplacer.create_replacement`
(replacement/pseudonym.py): unsupported labels raise `ValueError`; otherwise
the faker instance is re-seeded with `thread_id.int` and the generator of
the label category is drawn once.  `fakerDraw seed label` stands for the
first value the freshly seeded generator produces for the category — since
the seed is reset on every call, the result depends only on the thread
and the label, never on the entity text. -/
def pseudonymCreateReplacement (fakerDraw : Nat → Str → Str) (tid : Nat)
    (e : Entity) (st : EntityStore) : Except Unit (Str × EntityStore) :=
  if e.label ∈ pseudonymSupported then .ok (fakerDraw tid e.label, st)
  else .error ()

/-- The successful branch of the pseudonym strategy, as a plain strategy
function for `replace`. -/
def pseudoCreate (fakerDraw : Nat → Str → Str) (tid : Nat) :
    Entity → EntityStore → Str × EntityStore :=
  fun e st => (fakerDraw tid e.label, st)

/-- First entity of the C4 run: original `a`, label `person`. -/
def pseudoEntA : Entity := { start := 0, stop := 1, text := "a".data, label := "person".data }

/-- Second entity of the C4 run: original `b`, label `person`. -/
def pseudoEntB : Entity := { start := 2, stop := 3, text := "b".data, label := "person".data }

/-- C4: the mapping does not stay bijective under the pseudonym strategy.
Whatever value the seeded generator produces, one `replace` call over two
distinct same-label originals (`a` and `b`) in one thread assigns both the
same placeholder `fakerDraw tid "person"` — `create_replacement` re-seeds
the generator with `thread_id.int` before every draw, so its result cannot
depend on the original.  Both forward entries of the store then map to one
placeholder, and the reverse record of that placeholder is overwritten with
the second original. -/
theorem c4_pseudonym_collision (fakerDraw : Nat → Str → Str) (tid : Nat) :
    pseudonymCreateReplacement fakerDraw tid pseudoEntA {}
        = .ok (fakerDraw tid "person".data, {}) ∧
      "a".data ≠ "b".data ∧
      alookup "a".data
          (replace (pseudoCreate fakerDraw tid) "a b".data [pseudoEntA, pseudoEntB]
            {}).2.tex2rep
        = some (fakerDraw tid "person".data) ∧
      alookup "b".data
          (replace (pseudoCreate fakerDraw tid) "a b".data [pseudoEntA, pseudoEntB]
            {}).2.tex2rep
        = some (fakerDraw tid "person".data) ∧
      getText
          (replace (pseudoCreate fakerDraw tid) "a b".data [pseudoEntA, pseudoEntB]
            {}).2 (fakerDraw tid "person".data)
        = some ("b".data, "person".data) := by
  refine ⟨rfl, by decide, rfl, rfl, ?_⟩
  show alookup (fakerDraw tid "person".data)
      ((fakerDraw tid "person".data, ("b".data, "person".data)) ::
        (fakerDraw tid "person".data, ("a".data, "person".data)) :: [])
    = some ("b".data, "person".data)
  rw [alookup_cons, if_pos rfl]

/-! ## Claim C9 -/

/-- Python exceptions surfacing in the embedded fragments. -/
inductive PyErr where
  | attributeError : PyErr
  | valueError : PyErr
  | missingToolCallId : PyErr
  | missingMessageId : PyErr
deriving Repr, DecidableEq

/-- Zero-padded decimal rendering `f"{n:02d}"`. -/
def zeroPad2 (n : Nat) : Str :=
  if n < 10 then '0' :: Nat.toDigits 10 n else Nat.toDigits 10 n

/-- The attributes a replacer instance owns: `BaseReplacer.__init__` records
the entity store under the single name `entity_storage`. -/
def replacerAttrs : List Str := ["entity_storage".data]

/-- Embeds `PlaceholderReplacer.create_replacement`
(replacement/placeholder.py): the label is formatted (spaces to
underscores, uppercased), then the method reads `self.storage` — an
attribute the object does not have, since the base initialiser only sets
`entity_storage` — so Python raises `AttributeError`.  The then-branch is
the unreachable intended continuation: increment the counter keyed by the
formatted label and produce `[LABEL_NN]` with the zero-padded new value. -/
def placeholderCreateReplacement (e : Entity) (st : EntityStore) :
    Except PyErr (Str × EntityStore) :=
  let formattedLabel :=
    (e.label.map (fun c => if c = ' ' then '_' else c)).map Char.toUpper
  if "storage".data ∈ replacerAttrs then
    let r := incLabelCounter formattedLabel st
    .ok ('[' :: (formattedLabel ++ '_' :: (zeroPad2 r.1 ++ [']'])), r.2)
  else
    .error .attributeError

/-- The first person entity of a fresh thread, from the specification
scenario. -/
def c9Entity : Entity :=
  { start := 8, stop := 13, text := "Alice".data, label := "person".data }

/-- C9: `PlaceholderReplacer.create_replacement` never returns a
placeholder: for the first person entity of a fresh thread (and in fact for
every entity and store) it raises `AttributeError`, because the method reads
`self.storage` while the object only carries `entity_storage`; the expected
`[PERSON_01]` is never produced. -/
theorem c9_placeholder_attribute_error :
    placeholderCreateReplacement c9Entity {} = .error .attributeError ∧
      ∀ (e : Entity) (st : EntityStore),
        placeholderCreateReplacement e st = .error .attributeError :=
  ⟨rfl, fun _ _ => rfl⟩

/-! ## Messages (langchain message model, as used by the wrapper) -/

/-- The concrete message classes the wrapper distinguishes. -/
inductive MsgType where
  | human : MsgType
  | ai : MsgType
  | system : MsgType
  | tool : MsgType
deriving Repr, DecidableEq

/-- `message.__class__.__name__`, as written by the serializer. -/
def MsgType.className : MsgType → Str
  | .human => "HumanMessage".data
  | .ai => "AIMessage".data
  | .system => "SystemMessage".data
  | .tool => "ToolMessage".data

/-- A tool call of an `AIMessage`.  `args` holds the JSON-serialised
argument dict (`json.dumps` of the `args` field); the wrapper always moves
arguments through `dumps`/`loads` pairs around detection and replacement,
which is the identity on this serialised form. -/
structure ToolCallM where
  id : Option Str
  name : Str
  args : Str
deriving Repr, DecidableEq

/-- A chat message as the wrapper sees it.  `additionalKwargs` and
`responseMetadata` stand for the respective dicts, opaque to the wrapper. -/
structure Msg where
  type : MsgType
  content : Str
  id : Option Str := none
  toolCalls : List ToolCallM := []
  additionalKwargs : Str := []
  responseMetadata : Str := []
deriving Repr, DecidableEq

/-! ## Conversation store serialisation (storage/conversation/valkey.py) -/

/-- The JSON object written by
`ValkeyConversationStorage._serialize_message`: type tag, content, id, and
the two extra dicts.  Tool calls are not serialised. -/
structure SerMsg where
  type : Str
  content : Str
  id : Option Str
  additionalKwargs : Str
  responseMetadata : Str
deriving Repr, DecidableEq

/-- Embeds `ValkeyConversationStorage._serialize_message`. -/
def serializeMessage (m : Msg) : SerMsg :=
  { type := m.type.className
    content := m.content
    id := m.id
    additionalKwargs := m.additionalKwargs
    responseMetadata := m.responseMetadata }

/-- Embeds `ValkeyConversationStorage._deserialize_message`: `HumanMessage`
and `AIMessage` are reconstructed; every other type tag falls back to
`HumanMessage`; then id and the two dicts are restored.  The reconstructed
message carries no tool calls. -/
def deserializeMessage (d : SerMsg) : Msg :=
  let base : Msg :=
    if d.type = "HumanMessage".data then { type := .human, content := d.content }
    else if d.type = "AIMessage".data then { type := .ai, content := d.content }
    else { type := .human, content := d.content }
  { base with
    id := d.id
    additionalKwargs := d.additionalKwargs
    responseMetadata := d.responseMetadata }

/-! ## The detection pass (_detect_entities of privacy_wrapper.py) -/

/-- Python dict insertion for `transformed_texts[key] = value`: an existing
key keeps its position and is overwritten, a new key is appended. -/
def dinsert (k v : Str) (d : List (Str × Str)) : List (Str × Str) :=
  if (alookup k d).isSome then d.map (fun p => if p.1 = k then (k, v) else p)
  else d ++ [(k, v)]

/-- The tool-call loop of `_detect_entities`: each tool call must carry an
id; its serialised args are recorded under that id. -/
def collectToolCalls : List ToolCallM → List (Str × Str) → Except PyErr (List (Str × Str))
  | [], d => .ok d
  | tc :: rest, d =>
    match tc.id with
    | none => .error .missingToolCallId
    | some tcid => collectToolCalls rest (dinsert tcid tc.args d)

/-- Resolution of a message id: `transformed_message.id = str(uuid4())` only
when the message has none; `sup` is the uuid4 supply, indexed by draw
count, and the second component is the next draw index. -/
def resolveId (sup : Nat → Str) (i : Nat) (m : Msg) : Str × Nat :=
  match m.id with
  | some v => (v, i)
  | none => (sup i, i + 1)

/-- The payload-dict contribution of one non-system message: its content
under the message id, and, for an AI message with tool calls, each tool
call's serialised args under the tool-call id. -/
def msgPayloads (mid : Str) (m : Msg) (d : List (Str × Str)) :
    Except PyErr (List (Str × Str)) :=
  if m.type = .ai ∧ m.toolCalls ≠ [] then collectToolCalls m.toolCalls (dinsert mid m.content d)
  else .ok (dinsert mid m.content d)

/-- The message loop of `_detect_entities`: copy each message, assign a
fresh id when missing, skip system messages, and record the payloads of the
remaining messages in one ordered dict. -/
def detectWalk (sup : Nat → Str) :
    List Msg → Nat → List (Str × Str) → Except PyErr (List Msg × List (Str × Str) × Nat)
  | [], i, d => .ok ([], d, i)
  | m :: rest, i, d =>
    let tm := { m with id := some (resolveId sup i m).1 }
    if m.type = .system then
      match detectWalk sup rest (resolveId sup i m).2 d with
      | .ok (tms, d', i') => .ok (tm :: tms, d', i')
      | .error e => .error e
    else
      match msgPayloads (resolveId sup i m).1 m d with
      | .error e => .error e
      | .ok d2 =>
        match detectWalk sup rest (resolveId sup i m).2 d2 with
        | .ok (tms, d', i') => .ok (tm :: tms, d', i')
        | .error e => .error e

/-- Embeds `_detect_entities`: walk the messages building the payload dict,
run the detector over the payloads in one batch (`detector` is the
per-payload result of `BaseDetector.batch`), key the results by id and drop
empty detection lists. -/
def detectEntities (detector : Str → List Entity) (sup : Nat → Str)
    (msgs : List Msg) (i : Nat) :
    Except PyErr (List Msg × List (Str × List Entity) × Nat) :=
  match detectWalk sup msgs i [] with
  | .error e => .error e
  | .ok (tms, d, i') =>
    .ok (tms, (d.map (fun kv => (kv.1, detector kv.2))).filter
      (fun kv => ¬ kv.2.isEmpty), i')

/-! ## The replacement pass (_replace_entities of privacy_wrapper.py) -/

/-- The tool-call loop of `_replace_entities`: tool calls with detections
get their serialised args run through the replacer; others are kept. -/
def replaceToolCalls (create : Entity → EntityStore → Str × EntityStore)
    (outputs : List (Str × List Entity)) :
    List ToolCallM → EntityStore → Except PyErr (List ToolCallM × EntityStore)
  | [], st => .ok ([], st)
  | tc :: rest, st =>
    match tc.id with
    | none => .error .missingToolCallId
    | some tcid =>
      match alookup tcid outputs with
      | some ents =>
        let r := replace create tc.args ents st
        match replaceToolCalls create outputs rest r.2 with
        | .ok (tcs, st') => .ok ({ tc with args := r.1 } :: tcs, st')
        | .error e => .error e
      | none =>
        match replaceToolCalls create outputs rest st with
        | .ok (tcs, st') => .ok (tc :: tcs, st')
        | .error e => .error e

/-- Embeds `_replace_entities`: every message must carry an id; content with
detections is run through the replacer, then tool calls of AI messages are
processed. -/
def replaceEntities (create : Entity → EntityStore → Str × EntityStore)
    (outputs : List (Str × List Entity)) :
    List Msg → EntityStore → Except PyErr (List Msg × EntityStore)
  | [], st => .ok ([], st)
  | m :: rest, st =>
    match m.id with
    | none => .error .missingMessageId
    | some mid =>
      let cr : Str × EntityStore :=
        match alookup mid outputs with
        | some ents => replace create m.content ents st
        | none => (m.content, st)
      if m.type = .ai ∧ m.toolCalls ≠ [] then
        match replaceToolCalls create outputs m.toolCalls cr.2 with
        | .ok (tcs, st2) =>
          match replaceEntities create outputs rest st2 with
          | .ok (ms, st3) => .ok ({ m with content := cr.1, toolCalls := tcs } :: ms, st3)
          | .error e => .error e
        | .error e => .error e
      else
        match replaceEntities create outputs rest cr.2 with
        | .ok (ms, st3) => .ok ({ m with content := cr.1 } :: ms, st3)
        | .error e => .error e

/-! ## Restoration of the response (_restore_entities) -/

/-- Embeds `_restore_entities`: restore the content, and for AI messages
with tool calls also each tool call's serialised args. -/
def restoreMsg (st : EntityStore) (m : Msg) : Msg :=
  let m1 := { m with content := restore st m.content }
  if m.type = .ai ∧ m.toolCalls ≠ [] then
    { m1 with toolCalls := m.toolCalls.map (fun tc => { tc with args := restore st tc.args }) }
  else m1

/-! ## The per-turn orchestration (_generate of privacy_wrapper.py) -/

/-- The new tail of the history: messages beyond the stored redacted prefix;
defensively empty when the store holds at least as many messages. -/
def newTail (stored : Nat) (H : List Msg) : List Msg :=
  if stored < H.length then H.drop stored else []

/-- Result of one `_generate` call: restored response, conversation store,
entity stores, uuid4 draw count. -/
structure GenResult where
  restored : Msg
  conv : Option (Nat → List SerMsg)
  ent : Nat → EntityStore
  supIdx : Nat

/-- The tail of `_generate` after detection and replacement succeeded:
invoke the wrapped model on the full redacted history, append the new
redacted tail plus the response to the conversation store (only when a
storage is configured, the thread id string is truthy and there are new
messages), record the thread's entity store, and restore the response. -/
def generateCore (llm : List Msg → Msg) (tid : Nat) (tidTruthy : Bool)
    (existing newReplaced : List Msg) (st' : EntityStore)
    (conv : Option (Nat → List SerMsg)) (ent : Nat → EntityStore)
    (supIdx' : Nat) : GenResult :=
  let out := llm (existing ++ newReplaced)
  { restored := restoreMsg st' out
    conv :=
      match conv with
      | some cs =>
        if tidTruthy && !newReplaced.isEmpty then
          some (fun t => if t = tid then
            cs tid ++ (newReplaced ++ [out]).map serializeMessage else cs t)
        else some cs
      | none => none
    ent := fun t => if t = tid then st' else ent t
    supIdx := supIdx' }

/-- Embeds `PrivacyEnabledChatModel._generate`.  `strToUuid` models
`_string_to_uuid` (UUID parse, else md5 — pure and stable), `freshUuid` the
`uuid4()` drawn when no thread key is supplied, `sup` the uuid4 supply for
missing message ids, `llm` the wrapped chat model on the redacted history.
The conversation store holds serialised messages per thread id; the entity
stores are per thread id.  A supplied empty-string key is truthy as a kwarg
but falsy at the storage check, exactly as in the Python conditionals. -/
def generate (llm : List Msg → Msg) (detector : Str → List Entity)
    (create : Entity → EntityStore → Str × EntityStore)
    (strToUuid : Str → Nat) (freshUuid : Nat) (sup : Nat → Str)
    (threadKey : Option Str) (H : List Msg)
    (conv : Option (Nat → List SerMsg)) (ent : Nat → EntityStore) (supIdx : Nat) :
    Except PyErr GenResult :=
  let tid : Nat :=
    match threadKey with
    | some k => strToUuid k
    | none => freshUuid
  let tidTruthy : Bool :=
    match threadKey with
    | some k => !k.isEmpty
    | none => true
  let existing : List Msg :=
    match conv with
    | some cs => (cs tid).map deserializeMessage
    | none => []
  let nmsgs := newTail existing.length H
  if nmsgs.isEmpty then
    .ok { restored := restoreMsg (ent tid) (llm existing)
          conv := conv, ent := ent, supIdx := supIdx }
  else
    match detectEntities detector sup nmsgs supIdx with
    | .error e => .error e
    | .ok (tms, outputs, supIdx') =>
      match replaceEntities create outputs tms (ent tid) with
      | .error e => .error e
      | .ok (newReplaced, st') =>
        .ok (generateCore llm tid tidTruthy existing newReplaced st' conv ent supIdx')

/-! ## Claim C8 -/

/-- The `AIMessage`-with-tool-call of the C8 counterexample. -/
def c8aiMsg : Msg :=
  { type := .ai, content := "call".data, id := some "m1".data,
    toolCalls := [⟨some "tc1".data, "send_email".data, "a@x".data⟩] }

/-- The `ToolMessage` of the C8 counterexample. -/
def c8toolMsg : Msg := { type := .tool, content := "r".data, id := some "t1".data }

/-- C8 counterexample: the conversation-store round trip is not lossless.
An `AIMessage` carrying a tool call comes back without its tool-call list,
and a `ToolMessage` comes back as a `HumanMessage` (the deserialiser's
fallback), so neither the tool-call list nor the tool role tag survives. -/
theorem c8_serialization_counterexample :
    deserializeMessage (serializeMessage c8aiMsg) ≠ c8aiMsg ∧
      (deserializeMessage (serializeMessage c8toolMsg)).type ≠ .tool := by
  constructor <;> decide

/-- C8 (amended): the serialise/deserialise round trip of the Conversation
Store preserves content, id, `additional_kwargs` and `response_metadata`; it
preserves the role tag only for human and AI messages, collapsing every
other role to human, and always drops the tool-call list. -/
theorem c8_serialization_amended (m : Msg) :
    (deserializeMessage (serializeMessage m)).content = m.content ∧
      (deserializeMessage (serializeMessage m)).id = m.id ∧
      (deserializeMessage (serializeMessage m)).additionalKwargs = m.additionalKwargs ∧
      (deserializeMessage (serializeMessage m)).responseMetadata = m.responseMetadata ∧
      (deserializeMessage (serializeMessage m)).toolCalls = [] ∧
      (deserializeMessage (serializeMessage m)).type
        = (if m.type = .human ∨ m.type = .ai then m.type else .human) := by
  obtain ⟨t, c, i, tc, ak, rm⟩ := m
  cases t <;> exact ⟨rfl, rfl, rfl, rfl, rfl, rfl⟩

/-! ## Lemmas about the detection and replacement passes -/

theorem mem_dinsert {kv : Str × Str} {k v : Str} {d : List (Str × Str)}
    (h : kv ∈ dinsert k v d) : kv = (k, v) ∨ kv ∈ d := by
  unfold dinsert at h
  by_cases hs : (alookup k d).isSome
  · rw [if_pos hs] at h
    obtain ⟨p, hp, hpe⟩ := List.mem_map.mp h
    by_cases hpk : p.1 = k
    · rw [if_pos hpk] at hpe
      exact Or.inl hpe.symm
    · rw [if_neg hpk] at hpe
      exact Or.inr (hpe ▸ hp)
  · rw [if_neg hs] at h
    rcases List.mem_append.mp h with h1 | h1
    · exact Or.inr h1
    · exact Or.inl (List.mem_singleton.mp h1)

theorem collectToolCalls_src :
    ∀ (tcs : List ToolCallM) (d d2 : List (Str × Str)),
      collectToolCalls tcs d = .ok d2 →
      ∀ kv ∈ d2, kv ∈ d ∨ ∃ tc ∈ tcs, kv.2 = tc.args := by
  intro tcs
  induction tcs with
  | nil =>
    intro d d2 h kv hkv
    cases h
    exact Or.inl hkv
  | cons tc rest ih =>
    intro d d2 h kv hkv
    unfold collectToolCalls at h
    cases htc : tc.id with
    | none => rw [htc] at h; cases h
    | some tcid =>
      rw [htc] at h
      rcases ih _ _ h kv hkv with h1 | ⟨tc', htc', he⟩
      · rcases mem_dinsert h1 with h2 | h2
        · exact Or.inr ⟨tc, List.mem_cons_self tc rest, by rw [h2]⟩
        · exact Or.inl h2
      · exact Or.inr ⟨tc', List.mem_cons_of_mem tc htc', he⟩

theorem msgPayloads_src {mid : Str} {m : Msg} {d d2 : List (Str × Str)}
    (h : msgPayloads mid m d = .ok d2) :
    ∀ kv ∈ d2, kv ∈ d ∨ kv.2 = m.content ∨ ∃ tc ∈ m.toolCalls, kv.2 = tc.args := by
  intro kv hkv
  unfold msgPayloads at h
  by_cases hai : m.type = .ai ∧ m.toolCalls ≠ []
  · rw [if_pos hai] at h
    rcases collectToolCalls_src _ _ _ h kv hkv with h1 | ⟨tc, htc, he⟩
    · rcases mem_dinsert h1 with h2 | h2
      · exact Or.inr (Or.inl (by rw [h2]))
      · exact Or.inl h2
    · exact Or.inr (Or.inr ⟨tc, htc, he⟩)
  · rw [if_neg hai] at h
    cases h
    rcases mem_dinsert hkv with h2 | h2
    · exact Or.inr (Or.inl (by rw [h2]))
    · exact Or.inl h2

/-- Provenance of the detector payloads: every entry of the dict built by
the detection pass was already present or records the content or tool-call
args of a non-system message; system messages never contribute. -/
theorem detectWalk_payload_src (sup : Nat → Str) :
    ∀ (msgs : List Msg) (i : Nat) (d : List (Str × Str)) (tms : List Msg)
      (d' : List (Str × Str)) (i' : Nat),
      detectWalk sup msgs i d = .ok (tms, d', i') →
      ∀ kv ∈ d', kv ∈ d ∨ ∃ m ∈ msgs, m.type ≠ .system ∧
        (kv.2 = m.content ∨ ∃ tc ∈ m.toolCalls, kv.2 = tc.args) := by
  intro msgs
  induction msgs with
  | nil =>
    intro i d tms d' i' h kv hkv
    cases h
    exact Or.inl hkv
  | cons m rest ih =>
    intro i d tms d' i' h kv hkv
    unfold detectWalk at h
    by_cases hsys : m.type = .system
    · rw [if_pos hsys] at h
      cases hrec : detectWalk sup rest (resolveId sup i m).2 d with
      | error e => rw [hrec] at h; cases h
      | ok res =>
        rw [hrec] at h
        obtain ⟨tms0, d0, i0⟩ := res
        cases h
        rcases ih _ _ _ _ _ hrec kv hkv with h1 | ⟨m', hm', hrest⟩
        · exact Or.inl h1
        · exact Or.inr ⟨m', List.mem_cons_of_mem m hm', hrest⟩
    · rw [if_neg hsys] at h
      cases hpay : msgPayloads (resolveId sup i m).1 m d with
      | error e => rw [hpay] at h; cases h
      | ok d2 =>
        rw [hpay] at h
        have h2 : (match detectWalk sup rest (resolveId sup i m).2 d2 with
            | Except.ok (tms, d', i') =>
                Except.ok ({ m with id := some (resolveId sup i m).1 } :: tms, d', i')
            | Except.error e => Except.error e) = Except.ok (tms, d', i') := h
        clear h
        cases hrec : detectWalk sup rest (resolveId sup i m).2 d2 with
        | error e => rw [hrec] at h2; cases h2
        | ok res =>
          rw [hrec] at h2
          obtain ⟨tms0, d0, i0⟩ := res
          cases h2
          rcases ih _ _ _ _ _ hrec kv hkv with h1 | ⟨m', hm', hrest⟩
          · rcases msgPayloads_src hpay kv h1 with h2 | h2 | h2
            · exact Or.inl h2
            · exact Or.inr ⟨m, List.mem_cons_self m rest, hsys, Or.inl h2⟩
            · exact Or.inr ⟨m, List.mem_cons_self m rest, hsys, Or.inr h2⟩
          · exact Or.inr ⟨m', List.mem_cons_of_mem m hm', hrest⟩

/-- Relation between a message and its transformed copy in the detection
pass: every field is preserved except that a missing id is filled in. -/
def TransformedOK (m tm : Msg) : Prop :=
  tm.type = m.type ∧ tm.content = m.content ∧ tm.toolCalls = m.toolCalls ∧
    tm.additionalKwargs = m.additionalKwargs ∧
    tm.responseMetadata = m.responseMetadata ∧
    tm.id.isSome = true ∧ ∀ v, m.id = some v → tm.id = some v

theorem detectWalk_msgs (sup : Nat → Str) :
    ∀ (msgs : List Msg) (i : Nat) (d : List (Str × Str)) (tms : List Msg)
      (d' : List (Str × Str)) (i' : Nat),
      detectWalk sup msgs i d = .ok (tms, d', i') →
      List.Forall₂ TransformedOK msgs tms := by
  intro msgs
  induction msgs with
  | nil =>
    intro i d tms d' i' h
    cases h
    exact List.Forall₂.nil
  | cons m rest ih =>
    intro i d tms d' i' h
    unfold detectWalk at h
    have hok : TransformedOK m { m with id := some (resolveId sup i m).1 } := by
      refine ⟨rfl, rfl, rfl, rfl, rfl, rfl, ?_⟩
      intro v hv
      simp [resolveId, hv]
    by_cases hsys : m.type = .system
    · rw [if_pos hsys] at h
      cases hrec : detectWalk sup rest (resolveId sup i m).2 d with
      | error e => rw [hrec] at h; cases h
      | ok res =>
        rw [hrec] at h
        obtain ⟨tms0, d0, i0⟩ := res
        cases h
        exact List.Forall₂.cons hok (ih _ _ _ _ _ hrec)
    · rw [if_neg hsys] at h
      cases hpay : msgPayloads (resolveId sup i m).1 m d with
      | error e => rw [hpay] at h; cases h
      | ok d2 =>
        rw [hpay] at h
        have h2 : (match detectWalk sup rest (resolveId sup i m).2 d2 with
            | Except.ok (tms, d', i') =>
                Except.ok ({ m with id := some (resolveId sup i m).1 } :: tms, d', i')
            | Except.error e => Except.error e) = Except.ok (tms, d', i') := h
        clear h
        cases hrec : detectWalk sup rest (resolveId sup i m).2 d2 with
        | error e => rw [hrec] at h2; cases h2
        | ok res =>
          rw [hrec] at h2
          obtain ⟨tms0, d0, i0⟩ := res
          cases h2
          exact List.Forall₂.cons hok (ih _ _ _ _ _ hrec)

theorem alookup_none_of_all_ne {α : Type} {v : Str} {outputs : List (Str × α)}
    (h : ∀ kv ∈ outputs, kv.1 ≠ v) : alookup v outputs = none := by
  induction outputs with
  | nil => rfl
  | cons kv rest ih =>
    rw [alookup_cons, if_neg (h kv (List.mem_cons_self kv rest))]
    exact ih (fun x hx => h x (List.mem_cons_of_mem kv hx))

/-- The replacement pass leaves a message whose id keys no detection result
untouched when it is a system message. -/
theorem replaceEntities_sysskip (create : Entity → EntityStore → Str × EntityStore)
    (outputs : List (Str × List Entity)) :
    ∀ (msgs : List Msg) (st : EntityStore) (out : List Msg) (st' : EntityStore),
      replaceEntities create outputs msgs st = .ok (out, st') →
      List.Forall₂
        (fun m o => (m.type = .system ∧ ∀ kv ∈ outputs, some kv.1 ≠ m.id) → o = m)
        msgs out := by
  intro msgs
  induction msgs with
  | nil =>
    intro st out st' h
    cases h
    exact List.Forall₂.nil
  | cons m rest ih =>
    intro st out st' h
    unfold replaceEntities at h
    cases hid : m.id with
    | none => rw [hid] at h; cases h
    | some mid =>
      rw [hid] at h
      by_cases hai : m.type = .ai ∧ m.toolCalls ≠ []
      · have h1 : (if m.type = .ai ∧ m.toolCalls ≠ [] then
              match replaceToolCalls create outputs m.toolCalls
                  (match alookup mid outputs with
                    | some ents => replace create m.content ents st
                    | none => (m.content, st)).2 with
              | Except.ok (tcs, st2) =>
                match replaceEntities create outputs rest st2 with
                | Except.ok (ms, st3) =>
                    Except.ok (({ m with
                      content := (match alookup mid outputs with
                        | some ents => replace create m.content ents st
                        | none => (m.content, st)).1
                      id := some mid
                      toolCalls := tcs } : Msg) :: ms, st3)
                | Except.error e => Except.error e
              | Except.error e => Except.error e
            else
              match replaceEntities create outputs rest
                  (match alookup mid outputs with
                    | some ents => replace create m.content ents st
                    | none => (m.content, st)).2 with
              | Except.ok (ms, st3) =>
                  Except.ok (({ m with
                    content := (match alookup mid outputs with
                      | some ents => replace create m.content ents st
                      | none => (m.content, st)).1
                    id := some mid } : Msg) :: ms, st3)
              | Except.error e => Except.error e) = Except.ok (out, st') := h
        clear h
        rw [if_pos hai] at h1
        cases htc : replaceToolCalls create outputs m.toolCalls
            (match alookup mid outputs with
              | some ents => replace create m.content ents st
              | none => (m.content, st)).2 with
        | error e => rw [htc] at h1; cases h1
        | ok rtc =>
          rw [htc] at h1
          obtain ⟨tcs, st2⟩ := rtc
          have h2 : (match replaceEntities create outputs rest st2 with
              | Except.ok (ms, st3) =>
                  Except.ok (({ m with
                    content := (match alookup mid outputs with
                      | some ents => replace create m.content ents st
                      | none => (m.content, st)).1
                    id := some mid
                    toolCalls := tcs } : Msg) :: ms, st3)
              | Except.error e => Except.error e) = Except.ok (out, st') := h1
          clear h1
          cases hrec : replaceEntities create outputs rest st2 with
          | error e => rw [hrec] at h2; cases h2
          | ok res =>
            rw [hrec] at h2
            obtain ⟨ms, st3⟩ := res
            cases h2
            refine List.Forall₂.cons ?_ (ih _ _ _ hrec)
            rintro ⟨hsys, -⟩
            rw [hsys] at hai
            exact absurd hai.1 (by intro hcon; cases hcon)
      · have h1 : (if m.type = .ai ∧ m.toolCalls ≠ [] then
              match replaceToolCalls create outputs m.toolCalls
                  (match alookup mid outputs with
                    | some ents => replace create m.content ents st
                    | none => (m.content, st)).2 with
              | Except.ok (tcs, st2) =>
                match replaceEntities create outputs rest st2 with
                | Except.ok (ms, st3) =>
                    Except.ok (({ m with
                      content := (match alookup mid outputs with
                        | some ents => replace create m.content ents st
                        | none => (m.content, st)).1
                      id := some mid
                      toolCalls := tcs } : Msg) :: ms, st3)
                | Except.error e => Except.error e
              | Except.error e => Except.error e
            else
              match replaceEntities create outputs rest
                  (match alookup mid outputs with
                    | some ents => replace create m.content ents st
                    | none => (m.content, st)).2 with
              | Except.ok (ms, st3) =>
                  Except.ok (({ m with
                    content := (match alookup mid outputs with
                      | some ents => replace create m.content ents st
                      | none => (m.content, st)).1
                    id := some mid } : Msg) :: ms, st3)
              | Except.error e => Except.error e) = Except.ok (out, st') := h
        clear h
        rw [if_neg hai] at h1
        cases hrec : replaceEntities create outputs rest
            (match alookup mid outputs with
              | some ents => replace create m.content ents st
              | none => (m.content, st)).2 with
        | error e => rw [hrec] at h1; cases h1
        | ok res =>
          rw [hrec] at h1
          obtain ⟨ms, st3⟩ := res
          cases h1
          refine List.Forall₂.cons ?_ (ih _ _ _ hrec)
          rintro ⟨hsys, hexcl⟩
          have halo : alookup mid outputs = none := by
            apply alookup_none_of_all_ne
            intro kv hkv heq
            exact hexcl kv hkv (by rw [heq, hid])
          rw [halo]
          show ({ m with content := m.content, id := some mid } : Msg) = m
          rw [← hid]

/-! ## Claim C10 -/

/-- C10 (amended): system messages bypass detection.  Every payload the
detection pass hands to the detector originates from a non-system message
(its content or one of its tool-call args) — system messages are never
included; the transformed copy of every message preserves role, content,
tool calls and both metadata dicts, keeps an already-present id, and only
fills in a missing id with a fresh uuid; and the replacement pass returns a
system message completely unchanged whenever no detection result is keyed by
its id (which, by the first part, is the case when ids are not reused
across messages and tool calls). -/
theorem c10_system_bypass :
    (∀ (sup : Nat → Str) (msgs : List Msg) (i : Nat) (d : List (Str × Str))
      (tms : List Msg) (d' : List (Str × Str)) (i' : Nat),
      detectWalk sup msgs i d = .ok (tms, d', i') →
      (∀ kv ∈ d', kv ∈ d ∨ ∃ m ∈ msgs, m.type ≠ .system ∧
        (kv.2 = m.content ∨ ∃ tc ∈ m.toolCalls, kv.2 = tc.args)) ∧
        List.Forall₂ TransformedOK msgs tms) ∧
      (∀ (create : Entity → EntityStore → Str × EntityStore)
        (outputs : List (Str × List Entity)) (msgs : List Msg) (st : EntityStore)
        (out : List Msg) (st' : EntityStore),
        replaceEntities create outputs msgs st = .ok (out, st') →
        List.Forall₂
          (fun m o => (m.type = .system ∧ ∀ kv ∈ outputs, some kv.1 ≠ m.id) → o = m)
          msgs out) :=
  ⟨fun sup msgs i d tms d' i' h =>
    ⟨detectWalk_payload_src sup msgs i d tms d' i' h, detectWalk_msgs sup msgs i d tms d' i' h⟩,
    replaceEntities_sysskip⟩

/-- The system message of the C10 counterexample, with no id, as langchain
system prompts usually are. -/
def c10sysNoId : Msg := { type := .system, content := "be nice".data }

/-- C10 counterexample: the per-turn processing does modify a field of a
system message — a system message without an id is assigned a fresh uuid by
`_detect_entities`, so the copy dispatched onwards differs from the
original in its `id` field (its content is untouched and it still never
reaches the detector). -/
theorem c10_system_counterexample :
    detectEntities (fun _ => []) (fun _ => "u1".data) [c10sysNoId] 0
      = .ok ([{ c10sysNoId with id := some "u1".data }], [], 1) ∧
      ({ c10sysNoId with id := some "u1".data } : Msg) ≠ c10sysNoId := by
  exact ⟨rfl, by decide⟩

/-- The system and human messages of the C10 witness. -/
def c10sys : Msg := { type := .system, content := "be nice".data, id := some "s1".data }

/-- The non-system companion message of the C10 witness. -/
def c10hum : Msg := { type := .human, content := "bob".data, id := some "m1".data }

/-- C10 witness: the amended statement at a concrete two-message tail. -/
theorem c10_system_bypass_witness :
    (∀ kv ∈ [(("m1".data : Str), ("bob".data : Str))],
      kv ∈ ([] : List (Str × Str)) ∨ ∃ m ∈ [c10sys, c10hum], m.type ≠ .system ∧
        ((kv.2 : Str) = m.content ∨ ∃ tc ∈ m.toolCalls, (kv.2 : Str) = tc.args)) ∧
      List.Forall₂ TransformedOK [c10sys, c10hum] [c10sys, c10hum] ∧
      List.Forall₂
        (fun m o => (m.type = .system ∧
          ∀ kv ∈ ([] : List (Str × List Entity)), some kv.1 ≠ m.id) → o = m)
        [c10sys, c10hum] [c10sys, c10hum] :=
  ⟨(c10_system_bypass.1 (fun _ => "u".data) [c10sys, c10hum] 0 [] [c10sys, c10hum]
      [("m1".data, "bob".data)] 0 rfl).1,
    (c10_system_bypass.1 (fun _ => "u".data) [c10sys, c10hum] 0 [] [c10sys, c10hum]
      [("m1".data, "bob".data)] 0 rfl).2,
    c10_system_bypass.2 witCreate [] [c10sys, c10hum] {} [c10sys, c10hum] {} rfl⟩

/-! ## Claims C5 and C6 -/

theorem isEmpty_false_of_ne_nil {α : Type} {l : List α} (h : l ≠ []) :
    l.isEmpty = false := by
  cases l with
  | nil => exact absurd rfl h
  | cons a l => rfl

theorem detectEntities_msgs {detector : Str → List Entity} {sup : Nat → Str}
    {msgs : List Msg} {i : Nat} {tms : List Msg}
    {outputs : List (Str × List Entity)} {i' : Nat}
    (h : detectEntities detector sup msgs i = .ok (tms, outputs, i')) :
    List.Forall₂ TransformedOK msgs tms := by
  unfold detectEntities at h
  cases hw : detectWalk sup msgs i [] with
  | error e => rw [hw] at h; cases h
  | ok res =>
    rw [hw] at h
    obtain ⟨tms0, d0, i0⟩ := res
    cases h
    exact detectWalk_msgs _ _ _ _ _ _ _ hw

theorem replaceEntities_length {create : Entity → EntityStore → Str × EntityStore}
    {outputs : List (Str × List Entity)} {msgs out : List Msg}
    {st st' : EntityStore}
    (h : replaceEntities create outputs msgs st = .ok (out, st')) :
    out.length = msgs.length :=
  (List.Forall₂.length_eq (replaceEntities_sysskip create outputs msgs st out st' h)).symm

/-- Unfolding of one successful `generate` call carrying a thread key. -/
theorem generate_processing_some (llm : List Msg → Msg) (detector : Str → List Entity)
    (create : Entity → EntityStore → Str × EntityStore)
    (strToUuid : Str → Nat) (fresh : Nat) (sup : Nat → Str)
    (k : Str) (H : List Msg) (cs : Nat → List SerMsg)
    (ent : Nat → EntityStore) (i : Nat) (r : GenResult)
    (hok : generate llm detector create strToUuid fresh sup (some k) H (some cs) ent i
      = .ok r) :
    if (newTail ((cs (strToUuid k)).map deserializeMessage).length H).isEmpty then
      r = { restored := restoreMsg (ent (strToUuid k))
              (llm ((cs (strToUuid k)).map deserializeMessage))
            conv := some cs, ent := ent, supIdx := i }
    else
      ∃ tms outputs supIdx' newReplaced st',
        detectEntities detector sup
            (newTail ((cs (strToUuid k)).map deserializeMessage).length H) i
          = .ok (tms, outputs, supIdx') ∧
        replaceEntities create outputs tms (ent (strToUuid k)) = .ok (newReplaced, st') ∧
        r = generateCore llm (strToUuid k) (!k.isEmpty)
              ((cs (strToUuid k)).map deserializeMessage) newReplaced st' (some cs)
              ent supIdx' := by
  simp only [generate] at hok
  by_cases hempty :
      (newTail ((cs (strToUuid k)).map deserializeMessage).length H).isEmpty = true
  · rw [if_pos hempty] at hok ⊢
    cases hok
    rfl
  · rw [if_neg hempty] at hok ⊢
    cases hdet : detectEntities detector sup
        (newTail ((cs (strToUuid k)).map deserializeMessage).length H) i with
    | error e => rw [hdet] at hok; cases hok
    | ok trip =>
      rw [hdet] at hok
      obtain ⟨tms, outputs, supIdx'⟩ := trip
      have h2 : (match replaceEntities create outputs tms (ent (strToUuid k)) with
          | Except.error e => Except.error e
          | Except.ok (newReplaced, st') =>
              Except.ok (generateCore llm (strToUuid k) (!k.isEmpty)
                ((cs (strToUuid k)).map deserializeMessage) newReplaced st' (some cs)
                ent supIdx')) = Except.ok r := hok
      clear hok
      cases hrep : replaceEntities create outputs tms (ent (strToUuid k)) with
      | error e => rw [hrep] at h2; cases h2
      | ok pr =>
        rw [hrep] at h2
        obtain ⟨newReplaced, st'⟩ := pr
        cases h2
        exact ⟨tms, outputs, supIdx', newReplaced, st', rfl, hrep, rfl⟩

/-- Unfolding of one successful `generate` call without a thread key. -/
theorem generate_processing_none (llm : List Msg → Msg) (detector : Str → List Entity)
    (create : Entity → EntityStore → Str × EntityStore)
    (strToUuid : Str → Nat) (fresh : Nat) (sup : Nat → Str)
    (H : List Msg) (cs : Nat → List SerMsg)
    (ent : Nat → EntityStore) (i : Nat) (r : GenResult)
    (hok : generate llm detector create strToUuid fresh sup none H (some cs) ent i
      = .ok r) :
    if (newTail ((cs fresh).map deserializeMessage).length H).isEmpty then
      r = { restored := restoreMsg (ent fresh) (llm ((cs fresh).map deserializeMessage))
            conv := some cs, ent := ent, supIdx := i }
    else
      ∃ tms outputs supIdx' newReplaced st',
        detectEntities detector sup
            (newTail ((cs fresh).map deserializeMessage).length H) i
          = .ok (tms, outputs, supIdx') ∧
        replaceEntities create outputs tms (ent fresh) = .ok (newReplaced, st') ∧
        r = generateCore llm fresh true ((cs fresh).map deserializeMessage)
              newReplaced st' (some cs) ent supIdx' := by
  simp only [generate] at hok
  by_cases hempty :
      (newTail ((cs fresh).map deserializeMessage).length H).isEmpty = true
  · rw [if_pos hempty] at hok ⊢
    cases hok
    rfl
  · rw [if_neg hempty] at hok ⊢
    cases hdet : detectEntities detector sup
        (newTail ((cs fresh).map deserializeMessage).length H) i with
    | error e => rw [hdet] at hok; cases hok
    | ok trip =>
      rw [hdet] at hok
      obtain ⟨tms, outputs, supIdx'⟩ := trip
      have h2 : (match replaceEntities create outputs tms (ent fresh) with
          | Except.error e => Except.error e
          | Except.ok (newReplaced, st') =>
              Except.ok (generateCore llm fresh true
                ((cs fresh).map deserializeMessage) newReplaced st' (some cs)
                ent supIdx')) = Except.ok r := hok
      clear hok
      cases hrep : replaceEntities create outputs tms (ent fresh) with
      | error e => rw [hrep] at h2; cases h2
      | ok pr =>
        rw [hrep] at h2
        obtain ⟨newReplaced, st'⟩ := pr
        cases h2
        exact ⟨tms, outputs, supIdx', newReplaced, st', rfl, hrep, rfl⟩

theorem generateCore_conv (llm : List Msg → Msg) (tid : Nat) (tt : Bool)
    (existing nr : List Msg) (st' : EntityStore) (cs : Nat → List SerMsg)
    (ent : Nat → EntityStore) (idx : Nat) :
    (generateCore llm tid tt existing nr st' (some cs) ent idx).conv
      = (if tt && !nr.isEmpty then
          some (fun t => if t = tid then
            cs tid ++ (nr ++ [llm (existing ++ nr)]).map serializeMessage else cs t)
        else some cs) := rfl

theorem generateCore_ent (llm : List Msg → Msg) (tid : Nat) (tt : Bool)
    (existing nr : List Msg) (st' : EntityStore) (conv : Option (Nat → List SerMsg))
    (ent : Nat → EntityStore) (idx : Nat) :
    (generateCore llm tid tt existing nr st' conv ent idx).ent
      = fun t => if t = tid then st' else ent t := rfl

theorem generateCore_supIdx (llm : List Msg → Msg) (tid : Nat) (tt : Bool)
    (existing nr : List Msg) (st' : EntityStore) (conv : Option (Nat → List SerMsg))
    (ent : Nat → EntityStore) (idx : Nat) :
    (generateCore llm tid tt existing nr st' conv ent idx).supIdx = idx := rfl

/-- C6 (amended): when no thread key is supplied, the wrapper runs the turn
under the per-call fresh uuid4 value (a 128-bit identifier), and any
conversation-store or entity-store write of the call lands only under that
fresh id: the stored conversation and entity mappings of every other thread
id are unchanged.  The claim that nothing at all is written is refuted by
the counterexample: the call does append the redacted tail and reply under
the fresh id. -/
theorem c6_fresh_thread_frame
    (llm : List Msg → Msg) (detector : Str → List Entity)
    (create : Entity → EntityStore → Str × EntityStore)
    (strToUuid : Str → Nat) (freshUuid : Nat) (sup : Nat → Str)
    (H : List Msg) (cs : Nat → List SerMsg) (ent : Nat → EntityStore)
    (i : Nat) (r : GenResult)
    (hok : generate llm detector create strToUuid freshUuid sup none H (some cs) ent i
      = .ok r) :
    ∃ cs', r.conv = some cs' ∧ (∀ t, t ≠ freshUuid → cs' t = cs t) ∧
      ∀ t, t ≠ freshUuid → r.ent t = ent t := by
  have h := generate_processing_none llm detector create strToUuid freshUuid sup
    H cs ent i r hok
  by_cases hempty :
      (newTail ((cs freshUuid).map deserializeMessage).length H).isEmpty = true
  · rw [if_pos hempty] at h
    subst h
    exact ⟨cs, rfl, fun t ht => rfl, fun t ht => rfl⟩
  · rw [if_neg hempty] at h
    obtain ⟨tms, outputs, supIdx', newReplaced, st', -, -, rfl⟩ := h
    cases hnr : newReplaced.isEmpty with
    | true =>
      refine ⟨cs, ?_, fun t ht => rfl, fun t ht => ?_⟩
      · rw [generateCore_conv, hnr]
        rfl
      · rw [generateCore_ent]
        simp [ht]
    | false =>
      refine ⟨fun t => if t = freshUuid then
          cs freshUuid ++ ((newReplaced
            ++ [llm ((cs freshUuid).map deserializeMessage ++ newReplaced)]).map
              serializeMessage)
        else cs t, ?_, fun t ht => ?_, fun t ht => ?_⟩
      · rw [generateCore_conv, hnr]
        rfl
      · simp [ht]
      · rw [generateCore_ent]
        simp [ht]

/-- The user message of the C6 counterexample. -/
def c6H : Msg := { type := .human, content := "hi".data, id := some "m1".data }

/-- The model reply of the C6 counterexample. -/
def c6resp : Msg := { type := .ai, content := "ok".data, id := some "r1".data }

/-- C6 counterexample: a call without a thread key, with a conversation
store configured and one new message, does write to the Conversation Store:
under the freshly drawn uuid (42) the previously empty store afterwards
holds the redacted message and the reply, so the store state is not
unchanged. -/
theorem c6_fresh_thread_counterexample :
    (generate (fun _ => c6resp) (fun _ => []) witCreate (fun _ => 0) 42
        (fun _ => "u".data) none [c6H] (some (fun _ => [])) (fun _ => {}) 0).map
        (fun r => r.conv.map (fun cs => cs 42))
      = .ok (some [serializeMessage c6H, serializeMessage c6resp]) ∧
      ([serializeMessage c6H, serializeMessage c6resp] : List SerMsg) ≠ [] := by
  exact ⟨rfl, by decide⟩

/-- The result of the concrete no-key `_generate` call used for C6. -/
def c6r1 : GenResult :=
  match generate (fun _ => c6resp) (fun _ => []) witCreate (fun _ => 0) 42
      (fun _ => "u".data) none [c6H] (some (fun _ => [])) (fun _ => {}) 0 with
  | .ok r => r
  | .error _ => { restored := c6resp, conv := none, ent := fun _ => {}, supIdx := 0 }

theorem generate_empty_tail_some
    (llm : List Msg → Msg) (detector : Str → List Entity)
    (create : Entity → EntityStore → Str × EntityStore)
    (strToUuid : Str → Nat) (freshUuid : Nat) (sup : Nat → Str)
    (k : Str) (H : List Msg) (cs : Nat → List SerMsg) (ent : Nat → EntityStore)
    (i : Nat)
    (h : (newTail ((cs (strToUuid k)).map deserializeMessage).length H).isEmpty
      = true) :
    generate llm detector create strToUuid freshUuid sup (some k) H (some cs) ent i
      = .ok { restored := restoreMsg (ent (strToUuid k))
                (llm ((cs (strToUuid k)).map deserializeMessage)),
              conv := some cs, ent := ent, supIdx := i } := by
  simp only [generate]
  rw [if_pos h]

/-- C5: replay idempotence.  With a (truthy) thread key and a complete
history `H` strictly extending the stored redacted prefix, a successful
`_generate` call appends the redacted new tail plus the model reply once —
the thread's stored list afterwards has `len(H) + 1` entries and no other
thread is touched — and a second call with the same `H` computes an empty
new tail, performs no Conversation Store append and no entity-store write:
it returns with the same conversation store, entity stores and uuid draw
count. -/
theorem c5_replay_idempotent
    (llm : List Msg → Msg) (detector : Str → List Entity)
    (create : Entity → EntityStore → Str × EntityStore)
    (strToUuid : Str → Nat) (fresh1 fresh2 : Nat) (sup : Nat → Str)
    (k : Str) (H : List Msg) (cs : Nat → List SerMsg) (ent : Nat → EntityStore)
    (i : Nat) (r1 : GenResult)
    (hk : k ≠ [])
    (hlen : (cs (strToUuid k)).length < H.length)
    (hok : generate llm detector create strToUuid fresh1 sup (some k) H (some cs) ent i
      = .ok r1) :
    ∃ cs1, r1.conv = some cs1 ∧
      (cs1 (strToUuid k)).length = H.length + 1 ∧
      (∀ t, t ≠ strToUuid k → cs1 t = cs t) ∧
      newTail ((cs1 (strToUuid k)).map deserializeMessage).length H = [] ∧
      ∃ r2, generate llm detector create strToUuid fresh2 sup (some k) H (some cs1)
          r1.ent r1.supIdx = .ok r2 ∧
        r2.conv = some cs1 ∧ r2.ent = r1.ent ∧ r2.supIdx = r1.supIdx := by
  have h := generate_processing_some llm detector create strToUuid fresh1 sup
    k H cs ent i r1 hok
  have hstored : ((cs (strToUuid k)).map deserializeMessage).length
      = (cs (strToUuid k)).length := List.length_map _ _
  have hnt : newTail ((cs (strToUuid k)).map deserializeMessage).length H
      = H.drop (cs (strToUuid k)).length := by
    simp only [newTail, hstored]
    rw [if_pos hlen]
  have hdropne : H.drop (cs (strToUuid k)).length ≠ [] := by
    intro hc
    have hc2 := congrArg List.length hc
    rw [List.length_drop] at hc2
    simp at hc2
    omega
  have hempty : (newTail ((cs (strToUuid k)).map deserializeMessage).length H).isEmpty
      = false := by
    rw [hnt]
    exact isEmpty_false_of_ne_nil hdropne
  rw [hempty] at h
  simp only [Bool.false_eq_true, if_false] at h
  obtain ⟨tms, outputs, supIdx', newReplaced, st', hdet, hrep, rfl⟩ := h
  have hlentms : (newTail ((cs (strToUuid k)).map deserializeMessage).length H).length
      = tms.length := List.Forall₂.length_eq (detectEntities_msgs hdet)
  have hlennr : newReplaced.length = tms.length := replaceEntities_length hrep
  have hnrlen : newReplaced.length = H.length - (cs (strToUuid k)).length := by
    rw [hlennr, ← hlentms, hnt, List.length_drop]
  have hnrne : newReplaced.isEmpty = false := by
    apply isEmpty_false_of_ne_nil
    intro hc
    rw [hc] at hnrlen
    simp at hnrlen
    omega
  have hcond : ((!k.isEmpty) && !newReplaced.isEmpty) = true := by
    rw [isEmpty_false_of_ne_nil hk, hnrne]
    rfl
  have hlen1 : (cs (strToUuid k) ++ ((newReplaced
      ++ [llm ((cs (strToUuid k)).map deserializeMessage ++ newReplaced)]).map
        serializeMessage)).length = H.length + 1 := by
    rw [List.length_append, List.length_map, List.length_append]
    simp only [List.length_cons, List.length_nil]
    omega
  refine ⟨fun t => if t = strToUuid k then
      cs (strToUuid k) ++ ((newReplaced
        ++ [llm ((cs (strToUuid k)).map deserializeMessage ++ newReplaced)]).map
          serializeMessage)
    else cs t, ?_, ?_, fun t ht => ?_, ?_, ?_⟩
  · rw [generateCore_conv, if_pos hcond]
  · show (if strToUuid k = strToUuid k then
        cs (strToUuid k) ++ ((newReplaced
          ++ [llm ((cs (strToUuid k)).map deserializeMessage ++ newReplaced)]).map
            serializeMessage)
      else cs (strToUuid k)).length = H.length + 1
    rw [if_pos rfl]
    exact hlen1
  · simp [ht]
  · show newTail ((if strToUuid k = strToUuid k then
        cs (strToUuid k) ++ ((newReplaced
          ++ [llm ((cs (strToUuid k)).map deserializeMessage ++ newReplaced)]).map
            serializeMessage)
      else cs (strToUuid k)).map deserializeMessage).length H = []
    rw [if_pos rfl, List.length_map, hlen1]
    show (if H.length + 1 < H.length then H.drop (H.length + 1) else []) = []
    rw [if_neg (by omega)]
  · refine ⟨_, generate_empty_tail_some llm detector create strToUuid fresh2 sup
      k H _ _ _ ?_, rfl, rfl, rfl⟩
    show (newTail ((if strToUuid k = strToUuid k then
        cs (strToUuid k) ++ ((newReplaced
          ++ [llm ((cs (strToUuid k)).map deserializeMessage ++ newReplaced)]).map
            serializeMessage)
      else cs (strToUuid k)).map deserializeMessage).length H).isEmpty = true
    rw [if_pos rfl, List.length_map, hlen1]
    show (if H.length + 1 < H.length then H.drop (H.length + 1) else []).isEmpty
      = true
    rw [if_neg (by omega)]
    rfl

theorem c6_fresh_thread_frame_witness :
    (generate (fun _ => c6resp) (fun _ => []) witCreate (fun _ => 0) 42
        (fun _ => "u".data) none [c6H] (some (fun _ => [])) (fun _ => {}) 0
      = .ok c6r1) ∧
    ∃ cs', c6r1.conv = some cs' ∧
      (∀ t, t ≠ 42 → cs' t = ([] : List SerMsg)) ∧
      ∀ t, t ≠ 42 → c6r1.ent t = ({} : EntityStore) :=
  ⟨rfl, c6_fresh_thread_frame (fun _ => c6resp) (fun _ => []) witCreate
    (fun _ => 0) 42 (fun _ => "u".data) [c6H] (fun _ => []) (fun _ => {}) 0
    c6r1 rfl⟩

/-- The user message of the C5 witness scenario. -/
def c5H : Msg := { type := .human, content := "hi".data, id := some "m5".data }

/-- The model reply of the C5 witness scenario. -/
def c5resp : Msg := { type := .ai, content := "ok".data, id := some "r5".data }

/-- The result of the first concrete `_generate` call used for C5. -/
def c5r1 : GenResult :=
  match generate (fun _ => c5resp) (fun _ => []) witCreate (fun _ => 7) 0
      (fun _ => "u".data) (some "t".data) [c5H] (some (fun _ => []))
      (fun _ => {}) 0 with
  | .ok r => r
  | .error _ => { restored := c5resp, conv := none, ent := fun _ => {}, supIdx := 0 }

theorem c5_replay_idempotent_witness :
    ("t".data ≠ []) ∧ ((0 : Nat) < 1) ∧
    (generate (fun _ => c5resp) (fun _ => []) witCreate (fun _ => 7) 0
        (fun _ => "u".data) (some "t".data) [c5H] (some (fun _ => []))
        (fun _ => {}) 0 = .ok c5r1) ∧
    ∃ cs1, c5r1.conv = some cs1 ∧
      (cs1 7).length = 2 ∧
      (∀ t, t ≠ 7 → cs1 t = ([] : List SerMsg)) ∧
      newTail ((cs1 7).map deserializeMessage).length [c5H] = [] ∧
      ∃ r2, generate (fun _ => c5resp) (fun _ => []) witCreate (fun _ => 7) 1
          (fun _ => "u".data) (some "t".data) [c5H] (some cs1)
          c5r1.ent c5r1.supIdx = .ok r2 ∧
        r2.conv = some cs1 ∧ r2.ent = c5r1.ent ∧ r2.supIdx = c5r1.supIdx :=
  ⟨by decide, by decide, rfl,
    c5_replay_idempotent (fun _ => c5resp) (fun _ => []) witCreate (fun _ => 7)
      0 1 (fun _ => "u".data) "t".data [c5H] (fun _ => []) (fun _ => {}) 0 c5r1
      (by decide) (by decide) rfl⟩

end PEA
